import Mathlib

/-!
# VFont: a shallow embedding of `src/vfont.c`

The C module is a thin binding over an external font rasteriser (FreeType).  Its own
logic is the size bookkeeping of the handle, a UTF-8 decode loop, pen positioning and a
per-pixel alpha blend.  This file embeds that logic as executable Lean definitions and
proves properties of it.

Conventions of the embedding.

* C `int` and `long` values are `Int`; `uint8_t`, `uint32_t`, `size_t` and `FT_ULong`
  values are `Nat`.  The narrowing to `uint8_t` in the blend is an explicit `% 256`, and
  the narrowing of the `long` sum to `int` in `pen_x += advance.x >> 6` is `toInt32`.
  Overflow of an `int` addition is undefined behaviour in C and is outside the model.
* The external library is a parameter: a record of transition functions over an
  arbitrary face state `σ`, so every theorem holds for every behaviour of the library.
* The text pointer is the list of bytes that can be read starting at `text`
  (the string, its NUL terminator, and whatever memory follows it).  Reading past the
  end of that list is recorded as an over-read and stops the model.
* Calls to the library, glyph placements and pixel writes are recorded in logs that the
  C code does not have; they only observe what the code does.
-/

namespace VFont

/-! ## The external library -/

/-- Glyph bitmap left in the glyph slot by the library (`FT_Bitmap`): `buffer i` is the
byte found at offset `i` from the pointer `bitmap->buffer`. -/
structure FT_Bitmap where
  rows : Nat
  width : Nat
  pitch : Int
  buffer : Int → Nat
  pixel_mode : Nat

/-- Fields of the glyph slot (`FT_GlyphSlot`) that the renderer reads; `advance_x` is
`glyph->advance.x`, in 26.6 fixed point. -/
structure FT_GlyphSlot where
  bitmap : FT_Bitmap
  bitmap_left : Int
  bitmap_top : Int
  advance_x : Int

/-- Value of the enumerator `FT_PIXEL_MODE_MONO` in the library's header. -/
def FT_PIXEL_MODE_MONO : Nat := 1

/-- Calls into the library made by `vfont_set_size` and `vfont_render_text`. -/
inductive FTCall where
  | Set_Pixel_Sizes (pixel_width pixel_height : Int)
  | Load_Char (char_code : Nat)
  deriving DecidableEq, Repr

/-- Behaviour of the external library on a face whose state has type `σ`.
`FT_Set_Pixel_Sizes face w h` returns the new face state and the error code (0 is
success).  `FT_Load_Char face c` (always called with the flags
`FT_LOAD_RENDER | FT_LOAD_FORCE_AUTOHINT`) returns the new face state and `none` when the
error code is non-zero, or the contents of the glyph slot when it is zero. -/
structure FTLib (σ : Type) where
  FT_Set_Pixel_Sizes : σ → Int → Int → σ × Int
  FT_Load_Char : σ → Nat → σ × Option FT_GlyphSlot

/-! ## The handle -/

/-- The struct `VFontInternal`: `library` is the opaque pointer to the library instance,
`face` the state of the face object, `current_size` the cached size. -/
structure VFontInternal (σ : Type) where
  library : Nat
  face : σ
  current_size : Int

/-- Outcome of `vfont_set_size`: the returned code, the handle afterwards and the
library calls made. -/
structure SetSizeResult (σ : Type) where
  ret : Int
  handle : Option (VFontInternal σ)
  calls : List FTCall

/-- The function `vfont_set_size` (vfont.c lines 53-68). -/
def vfont_set_size {σ : Type} (lib : FTLib σ) (handle : Option (VFontInternal σ))
    (size : Int) : SetSizeResult σ :=
  match handle with
  | none => { ret := -1, handle := none, calls := [] }
  | some font =>
    if size ≤ 0 then { ret := -1, handle := some font, calls := [] }
    else if font.current_size ≠ size then
      let r := lib.FT_Set_Pixel_Sizes font.face 0 size
      if r.2 ≠ 0 then
        { ret := -1, handle := some { font with face := r.1 },
          calls := [FTCall.Set_Pixel_Sizes 0 size] }
      else
        { ret := 0, handle := some { font with face := r.1, current_size := size },
          calls := [FTCall.Set_Pixel_Sizes 0 size] }
    else { ret := 0, handle := some font, calls := [] }

/-! ## Compositing -/

/-- One store `buffer[index] = value`, with the coordinates it was computed from. -/
structure PixelWrite where
  px : Int
  py : Int
  index : Nat
  value : Nat
  deriving DecidableEq, Repr

/-- A successfully loaded glyph together with the top-left corner `(x_start, y_start)`
at which its mask is composited. -/
structure Placement where
  x_start : Int
  y_start : Int
  glyph : FT_GlyphSlot

/-- The pixel buffer and the log of stores made into it. -/
structure Canvas where
  buffer : List Nat
  writes : List PixelWrite

/-- Coverage `alpha` of mask pixel `(row, col)` (vfont.c lines 155-164). -/
def coverage (bitmap : FT_Bitmap) (row col : Nat) : Nat :=
  if bitmap.pixel_mode = FT_PIXEL_MODE_MONO then
    let byte := bitmap.buffer ((row : Int) * bitmap.pitch + ((col / 8 : Nat) : Int)) % 256
    if (byte >>> (7 - col % 8)) &&& 1 ≠ 0 then 255 else 0
  else
    bitmap.buffer ((row : Int) * bitmap.pitch + (col : Int)) % 256

/-- The blended pixel stored at lines 171-178: each channel is narrowed to `uint8_t`
before the pixel is packed. -/
def blend (color bg alpha : Nat) : Nat :=
  let r := ((((color >>> 16) &&& 0xFF) * alpha / 255 +
              ((bg >>> 16) &&& 0xFF) * (255 - alpha) / 255) % 256)
  let g := ((((color >>> 8) &&& 0xFF) * alpha / 255 +
              ((bg >>> 8) &&& 0xFF) * (255 - alpha) / 255) % 256)
  let b := (((color &&& 0xFF) * alpha / 255 + (bg &&& 0xFF) * (255 - alpha) / 255) % 256)
  (0xFF <<< 24) ||| (r <<< 16) ||| (g <<< 8) ||| b

/-- Body of the inner loop (lines 149-179) for mask pixel `(row, col)`. -/
def compositePixel (bitmap : FT_Bitmap) (buf_width buf_height x_start y_start : Int)
    (color : Nat) (row col : Nat) (cv : Canvas) : Canvas :=
  let px := x_start + (col : Int)
  let py := y_start + (row : Int)
  if px < 0 ∨ px ≥ buf_width ∨ py < 0 ∨ py ≥ buf_height then cv
  else
    let alpha := coverage bitmap row col
    if alpha > 0 then
      let index := py.toNat * buf_width.toNat + px.toNat
      let bg := cv.buffer.getD index 0
      let value := blend color bg alpha
      { buffer := cv.buffer.set index value,
        writes := cv.writes ++ [{ px := px, py := py, index := index, value := value }] }
    else cv

/-- The loop over the columns of one mask row (lines 147-180). -/
def compositeRow (bitmap : FT_Bitmap) (buf_width buf_height x_start y_start : Int)
    (color : Nat) (row : Nat) (cv : Canvas) : Canvas :=
  (List.range bitmap.width).foldl
    (fun acc col => compositePixel bitmap buf_width buf_height x_start y_start color row col acc)
    cv

/-- The loop over the rows of the mask (lines 145-181). -/
def compositeGlyph (bitmap : FT_Bitmap) (buf_width buf_height x_start y_start : Int)
    (color : Nat) (cv : Canvas) : Canvas :=
  (List.range bitmap.rows).foldl
    (fun acc row => compositeRow bitmap buf_width buf_height x_start y_start color row acc)
    cv

/-! ## Rendering -/

/-- Conversion of a `long` value to `int`: reduction modulo `2^32` into the range
`-2^31 .. 2^31 - 1`. -/
def toInt32 (z : Int) : Int := (z + 2147483648) % 4294967296 - 2147483648

/-- State of the text loop: the face, the buffer, the pen, the cursor `p` (offset from
`text`), and the logs.  `overread` is set when the loop reads past the end of the
memory that holds the text. -/
structure Render (σ : Type) where
  face : σ
  buffer : List Nat
  pen_x : Int
  p : Nat
  overread : Bool
  calls : List FTCall
  placed : List Placement
  writes : List PixelWrite

/-- Lines 136-183: load the glyph of `codepoint`, composite it and advance the pen; when
the load fails nothing else happens. -/
def renderGlyph {σ : Type} (lib : FTLib σ) (buf_width buf_height : Int) (color : Nat)
    (pen_y : Int) (codepoint : Nat) (st : Render σ) : Render σ :=
  match lib.FT_Load_Char st.face codepoint with
  | (face', none) =>
    { st with face := face', calls := st.calls ++ [FTCall.Load_Char codepoint] }
  | (face', some glyph) =>
    let x_start := st.pen_x + glyph.bitmap_left
    let y_start := pen_y - glyph.bitmap_top
    let cv := compositeGlyph glyph.bitmap buf_width buf_height x_start y_start color
      { buffer := st.buffer, writes := st.writes }
    { st with
      face := face'
      buffer := cv.buffer
      writes := cv.writes
      pen_x := toInt32 (st.pen_x + (glyph.advance_x >>> 6))
      calls := st.calls ++ [FTCall.Load_Char codepoint]
      placed := st.placed ++ [{ x_start := x_start, y_start := y_start, glyph := glyph }] }

/-- The loop `while (*p)` (lines 106-184).  The list argument is the memory from the
cursor on: its head is `p[0]`.  Each element is read as an `unsigned char`. -/
def renderLoop {σ : Type} (lib : FTLib σ) (buf_width buf_height : Int) (color : Nat)
    (pen_y : Int) : List Nat → Render σ → Render σ
  | [], st => { st with overread := true }
  | c0 :: rest, st =>
    let p0 := c0 % 256
    if p0 = 0 then st
    else if p0 &&& 0x80 = 0 then
      renderLoop lib buf_width buf_height color pen_y rest
        (renderGlyph lib buf_width buf_height color pen_y p0 { st with p := st.p + 1 })
    else if p0 &&& 0xE0 = 0xC0 then
      match rest with
      | c1 :: rest2 =>
        let p1 := c1 % 256
        renderLoop lib buf_width buf_height color pen_y rest2
          (renderGlyph lib buf_width buf_height color pen_y
            (((p0 &&& 0x1F) <<< 6) ||| (p1 &&& 0x3F)) { st with p := st.p + 2 })
      | _ => { st with overread := true }
    else if p0 &&& 0xF0 = 0xE0 then
      match rest with
      | c1 :: c2 :: rest3 =>
        let p1 := c1 % 256
        let p2 := c2 % 256
        renderLoop lib buf_width buf_height color pen_y rest3
          (renderGlyph lib buf_width buf_height color pen_y
            (((p0 &&& 0x0F) <<< 12) ||| ((p1 &&& 0x3F) <<< 6) ||| (p2 &&& 0x3F))
            { st with p := st.p + 3 })
      | _ => { st with overread := true }
    else if p0 &&& 0xF8 = 0xF0 then
      match rest with
      | c1 :: c2 :: c3 :: rest4 =>
        let p1 := c1 % 256
        let p2 := c2 % 256
        let p3 := c3 % 256
        renderLoop lib buf_width buf_height color pen_y rest4
          (renderGlyph lib buf_width buf_height color pen_y
            (((p0 &&& 0x07) <<< 18) ||| ((p1 &&& 0x3F) <<< 12) |||
              ((p2 &&& 0x3F) <<< 6) ||| (p3 &&& 0x3F))
            { st with p := st.p + 4 })
      | _ => { st with overread := true }
    else
      renderLoop lib buf_width buf_height color pen_y rest { st with p := st.p + 1 }

/-- Lines 87-96: the handle after the size override, the effective `size`, and the
library calls made.  The return value of `FT_Set_Pixel_Sizes` is not inspected here. -/
def resolveSize {σ : Type} (lib : FTLib σ) (font : VFontInternal σ) (size : Int) :
    VFontInternal σ × Int × List FTCall :=
  if size > 0 ∧ font.current_size ≠ size then
    ({ font with face := (lib.FT_Set_Pixel_Sizes font.face 0 size).1, current_size := size },
      size, [FTCall.Set_Pixel_Sizes 0 size])
  else if size ≤ 0 then (font, font.current_size, [])
  else (font, size, [])

/-- What a call of `vfont_render_text` leaves behind: the handle, the buffer, the final
cursor and pen, and the logs. -/
structure RenderResult (σ : Type) where
  handle : Option (VFontInternal σ)
  buffer : Option (List Nat)
  p : Nat
  pen_x : Int
  pen_y : Int
  overread : Bool
  calls : List FTCall
  placed : List Placement
  writes : List PixelWrite

/-- The function `vfont_render_text` (vfont.c lines 70-185).  A null pointer argument is
`none`. -/
def vfont_render_text {σ : Type} (lib : FTLib σ) (handle : Option (VFontInternal σ))
    (text : Option (List Nat)) (buffer : Option (List Nat)) (buf_width buf_height : Int)
    (x y : Int) (color : Nat) (size : Int) : RenderResult σ :=
  match handle, text, buffer with
  | some font, some txt, some buf =>
    if buf_width ≤ 0 ∨ buf_height ≤ 0 then
      { handle := handle, buffer := buffer, p := 0, pen_x := x, pen_y := y,
        overread := false, calls := [], placed := [], writes := [] }
    else
      let rs := resolveSize lib font size
      let pen_x := x
      let pen_y := y + rs.2.1
      let st := renderLoop lib buf_width buf_height color pen_y txt
        { face := rs.1.face, buffer := buf, pen_x := pen_x, p := 0, overread := false,
          calls := rs.2.2, placed := [], writes := [] }
      { handle := some { rs.1 with face := st.face }, buffer := some st.buffer, p := st.p,
        pen_x := st.pen_x, pen_y := pen_y, overread := st.overread, calls := st.calls,
        placed := st.placed, writes := st.writes }
  | _, _, _ =>
    { handle := handle, buffer := buffer, p := 0, pen_x := x, pen_y := y,
      overread := false, calls := [], placed := [], writes := [] }

/-- Code points passed to `FT_Load_Char`, in call order. -/
def loadedCodepoints : List FTCall → List Nat
  | [] => []
  | FTCall.Load_Char c :: rest => c :: loadedCodepoints rest
  | FTCall.Set_Pixel_Sizes _ _ :: rest => loadedCodepoints rest


/-! ## Initialisation -/

/-- Library calls made while a handle is created or released.  The flag of
`Init_FreeType` and `New_Face` tells whether the call succeeded (error code 0).
`Done_Face` is made by `vfont_free` only. -/
inductive FTLifeCall where
  | Init_FreeType (ok : Bool)
  | New_Face (ok : Bool)
  | Select_Charmap
  | Set_Pixel_Sizes (pixel_width pixel_height : Int)
  | Done_Face
  | Done_FreeType
  deriving DecidableEq, Repr

/-- Responses of the allocator and of the library during `vfont_init`: whether `malloc`
returns memory, the instance produced by `FT_Init_FreeType` (`none` for a non-zero error
code), the face produced by `FT_New_Face library path face_index` (`none` for a non-zero
error code) and the effect of `FT_Select_Charmap face FT_ENCODING_UNICODE`. -/
structure FTSetup (σ : Type) where
  malloc_ok : Bool
  FT_Init_FreeType : Option Nat
  FT_New_Face : Nat → List Nat → Int → Option σ
  FT_Select_Charmap : σ → σ × Int

/-- Outcome of `vfont_init`: the handle (`none` is `NULL`) and the library calls made. -/
structure InitResult (σ : Type) where
  handle : Option (VFontInternal σ)
  calls : List FTLifeCall

/-- The function `vfont_init` (vfont.c lines 19-51).  The path is the byte string
`ttf_path`, `none` when the pointer is null. -/
def vfont_init {σ : Type} (setup : FTSetup σ) (lib : FTLib σ) (ttf_path : Option (List Nat))
    (size : Int) : InitResult σ :=
  match ttf_path with
  | none => { handle := none, calls := [] }
  | some path =>
    if size ≤ 0 then { handle := none, calls := [] }
    else if setup.malloc_ok = false then { handle := none, calls := [] }
    else
      match setup.FT_Init_FreeType with
      | none => { handle := none, calls := [FTLifeCall.Init_FreeType false] }
      | some library =>
        match setup.FT_New_Face library path 0 with
        | none =>
          { handle := none,
            calls := [FTLifeCall.Init_FreeType true, FTLifeCall.New_Face false,
              FTLifeCall.Done_FreeType] }
        | some face =>
          let face1 := (setup.FT_Select_Charmap face).1
          let face2 := (lib.FT_Set_Pixel_Sizes face1 0 size).1
          { handle := some { library := library, face := face2, current_size := size },
            calls := [FTLifeCall.Init_FreeType true, FTLifeCall.New_Face true,
              FTLifeCall.Select_Charmap, FTLifeCall.Set_Pixel_Sizes 0 size] }

/-- Change in the number of live library instances caused by one call: a successful
`FT_Init_FreeType` creates one, `FT_Done_FreeType` releases one. -/
def libraryDelta : FTLifeCall → Int
  | FTLifeCall.Init_FreeType true => 1
  | FTLifeCall.Done_FreeType => -1
  | _ => 0

/-- Change in the number of live faces caused by one call: a successful `FT_New_Face`
creates one, `FT_Done_Face` releases one. -/
def faceDelta : FTLifeCall → Int
  | FTLifeCall.New_Face true => 1
  | FTLifeCall.Done_Face => -1
  | _ => 0

/-- Number of live library instances after the calls, given the number before them. -/
def liveLibraries (before : Int) (calls : List FTLifeCall) : Int :=
  before + (calls.map libraryDelta).sum

/-- Number of live faces after the calls, given the number before them. -/
def liveFaces (before : Int) (calls : List FTLifeCall) : Int :=
  before + (calls.map faceDelta).sum

/-- Whole-pixel advance of a placed glyph, `advance.x >> 6`. -/
def Placement.advance (pl : Placement) : Int := pl.glyph.advance_x >>> 6

/-! ## Specification-side definitions -/

/-- Channel formula of the specification: `c * alpha / 255 + d * (255 - alpha) / 255`
with truncating divisions and no narrowing. -/
def blendChannel (c d alpha : Nat) : Nat := c * alpha / 255 + d * (255 - alpha) / 255

/-- Mask pixel `(row, col)` of the placed glyph has non-zero coverage, lands inside
`[0, buf_width) × [0, buf_height)` and maps to buffer index `i`. -/
def Placement.covers (pl : Placement) (buf_width buf_height : Int) (i : Nat) : Prop :=
  ∃ row col : Nat, row < pl.glyph.bitmap.rows ∧ col < pl.glyph.bitmap.width ∧
    coverage pl.glyph.bitmap row col > 0 ∧
    0 ≤ pl.x_start + (col : Int) ∧ pl.x_start + (col : Int) < buf_width ∧
    0 ≤ pl.y_start + (row : Int) ∧ pl.y_start + (row : Int) < buf_height ∧
    (pl.y_start + (row : Int)).toNat * buf_width.toNat + (pl.x_start + (col : Int)).toNat = i

/-- A store whose coordinates lie inside the declared bounds and whose index is
`py * buf_width + px`, below `n`. -/
def PixelWrite.InBounds (wr : PixelWrite) (buf_width buf_height : Int) (n : Nat) : Prop :=
  0 ≤ wr.px ∧ wr.px < buf_width ∧ 0 ≤ wr.py ∧ wr.py < buf_height ∧
    (wr.index : Int) = wr.py * buf_width + wr.px ∧ wr.index < n


/-- Pixel of the specification: alpha byte `0xFF`, then the three blended channels. -/
def specPixel (color bg alpha : Nat) : Nat :=
  0xFF000000 |||
    (blendChannel ((color >>> 16) &&& 0xFF) ((bg >>> 16) &&& 0xFF) alpha <<< 16) |||
    (blendChannel ((color >>> 8) &&& 0xFF) ((bg >>> 8) &&& 0xFF) alpha <<< 8) |||
    blendChannel (color &&& 0xFF) (bg &&& 0xFF) alpha

/-- Standard UTF-8 encoding of one code point (1 to 4 bytes):
`0xxxxxxx`, `110xxxxx 10xxxxxx`, `1110xxxx 10xxxxxx 10xxxxxx`,
`11110xxx 10xxxxxx 10xxxxxx 10xxxxxx`. -/
def utf8Encode (c : Nat) : List Nat :=
  if c < 0x80 then [c]
  else if c < 0x800 then [0xC0 ||| (c >>> 6), 0x80 ||| (c &&& 0x3F)]
  else if c < 0x10000 then
    [0xE0 ||| (c >>> 12), 0x80 ||| ((c >>> 6) &&& 0x3F), 0x80 ||| (c &&& 0x3F)]
  else
    [0xF0 ||| (c >>> 18), 0x80 ||| ((c >>> 12) &&& 0x3F), 0x80 ||| ((c >>> 6) &&& 0x3F),
      0x80 ||| (c &&& 0x3F)]

/-- Standard UTF-8 encoding of a list of code points, without the terminator. -/
def utf8EncodeAll : List Nat → List Nat
  | [] => []
  | c :: cs => utf8Encode c ++ utf8EncodeAll cs

/-- The byte sequence `seq` starts with a byte matching one of the four leading
patterns, has the length that pattern calls for, and `cp` joins the payload bits of the
leading byte with the low six bits of each following byte, whatever the top bits of the
following bytes are. -/
def LeadDecodes : List Nat → Nat → Prop
  | [b0], cp => b0 ≠ 0 ∧ b0 &&& 0x80 = 0 ∧ cp = b0
  | [b0, b1], cp => b0 &&& 0xE0 = 0xC0 ∧ cp = ((b0 &&& 0x1F) <<< 6) ||| (b1 &&& 0x3F)
  | [b0, b1, b2], cp =>
    b0 &&& 0xF0 = 0xE0 ∧
      cp = ((b0 &&& 0x0F) <<< 12) ||| ((b1 &&& 0x3F) <<< 6) ||| (b2 &&& 0x3F)
  | [b0, b1, b2, b3], cp =>
    b0 &&& 0xF8 = 0xF0 ∧
      cp = ((b0 &&& 0x07) <<< 18) ||| ((b1 &&& 0x3F) <<< 12) ||| ((b2 &&& 0x3F) <<< 6) |||
        (b3 &&& 0x3F)
  | _, _ => False

/-- The sequence `seq` is a well-formed UTF-8 sequence for `cp`: a leading byte followed by
the required number of `10xxxxxx` continuation bytes. -/
def WellFormedDecodes (seq : List Nat) (cp : Nat) : Prop :=
  LeadDecodes seq cp ∧ ∀ b ∈ seq.tail, b &&& 0xC0 = 0x80

/-- Pen reached from `x` after the whole-pixel advances `advs`: each sum is narrowed to
`int`. -/
def penAfter (x : Int) (advs : List Int) : Int :=
  advs.foldl (fun pen a => toInt32 (pen + a)) x

/-- The value `z` is representable in a 32-bit `int`. -/
def InInt32 (z : Int) : Prop := -2147483648 ≤ z ∧ z < 2147483648

/-- The pen invariant of the text loop: the pen is the one reached from `x` after the
advances of the glyphs placed so far, every placed glyph sits at the pen it was loaded at
plus its left bearing, and at `pen_y` minus its top bearing. -/
def PenInvariant {σ : Type} (x pen_y : Int) (st : Render σ) : Prop :=
  st.pen_x = penAfter x (st.placed.map Placement.advance) ∧
    (∀ k pl, st.placed[k]? = some pl →
      pl.x_start = penAfter x ((st.placed.map Placement.advance).take k)
        + pl.glyph.bitmap_left) ∧
    (∀ pl ∈ st.placed, pl.y_start = pen_y - pl.glyph.bitmap_top)

/-- Steps 4 and 7 of the specification for one code point, on the face state, the pen and
the list of placed glyphs: a failed load changes only the face state; a loaded glyph is
placed at the pen plus its left bearing and at `pen_y` minus its top bearing, and the pen
moves by its whole-pixel advance. -/
def penStep {σ : Type} (lib : FTLib σ) (pen_y : Int) (s : σ × Int × List Placement)
    (codepoint : Nat) : σ × Int × List Placement :=
  match lib.FT_Load_Char s.1 codepoint with
  | (face', none) => (face', s.2.1, s.2.2)
  | (face', some glyph) =>
    (face', toInt32 (s.2.1 + (glyph.advance_x >>> 6)),
      s.2.2 ++ [{ x_start := s.2.1 + glyph.bitmap_left, y_start := pen_y - glyph.bitmap_top,
                  glyph := glyph }])

/-- Step 5 of the specification for a list of placed glyphs: each mask is composited in
turn at its position. -/
def blitAll (buf_width buf_height : Int) (color : Nat) (placed : List Placement)
    (cv : Canvas) : Canvas :=
  placed.foldl
    (fun acc pl =>
      compositeGlyph pl.glyph.bitmap buf_width buf_height pl.x_start pl.y_start color acc)
    cv

/-! ## Test doubles of the external library -/

/-- Library double: every size is accepted and no glyph can be loaded. -/
def noGlyphLib : FTLib Unit :=
  { FT_Set_Pixel_Sizes := fun _ _ _ => ((), 0)
    FT_Load_Char := fun _ _ => ((), none) }

/-- A one-pixel 8-bit mask of coverage `a`, bearings 0, advance of one pixel. -/
def dotGlyph (a : Nat) : FT_GlyphSlot :=
  { bitmap := { rows := 1, width := 1, pitch := 1, buffer := fun _ => a, pixel_mode := 2 }
    bitmap_left := 0
    bitmap_top := 0
    advance_x := 64 }

/-- Library double: every size is accepted and every code point yields `dotGlyph a`. -/
def dotLib (a : Nat) : FTLib Unit :=
  { FT_Set_Pixel_Sizes := fun _ _ _ => ((), 0)
    FT_Load_Char := fun _ _ => ((), some (dotGlyph a)) }

/-- A handle whose recorded size is `size`. -/
def testFont (size : Int) : VFontInternal Unit :=
  { library := 0, face := (), current_size := size }

/-- Library double: every size is rejected with error code 1 and no glyph can be
loaded. -/
def rejectLib : FTLib Unit :=
  { FT_Set_Pixel_Sizes := fun _ _ _ => ((), 1)
    FT_Load_Char := fun _ _ => ((), none) }

/-- A one-row, eight-pixel 1-bit mask whose only byte is `0b10110000`. -/
def monoRow : FT_Bitmap :=
  { rows := 1, width := 8, pitch := 1, buffer := fun _ => 0xB0,
    pixel_mode := FT_PIXEL_MODE_MONO }

/-- A one-pixel 8-bit mask of full coverage whose advance is `2^32 + 2` pixels. -/
def wideGlyph : FT_GlyphSlot :=
  { bitmap := { rows := 1, width := 1, pitch := 1, buffer := fun _ => 255, pixel_mode := 2 }
    bitmap_left := 0
    bitmap_top := 0
    advance_x := 4294967298 * 64 }

/-- Library double: every size is accepted and every code point yields `wideGlyph`. -/
def wideLib : FTLib Unit :=
  { FT_Set_Pixel_Sizes := fun _ _ _ => ((), 0)
    FT_Load_Char := fun _ _ => ((), some wideGlyph) }

/-- The call `vfont_render_text(handle, "AA", buffer, 6, 1, 1, -2, 0x00FF0000, 0)` on a
handle of recorded size 2, a buffer of six zero pixels and the library `wideLib`. -/
def wideRun : RenderResult Unit :=
  vfont_render_text wideLib (some (testFont 2)) (some [0x41, 0x41, 0])
    (some (List.replicate 6 0)) 6 1 1 (-2) 0xFF0000 0

/-- Setup double: `malloc` succeeds, the library instance is created at address 1 and the
face cannot be loaded. -/
def noFaceSetup : FTSetup Unit :=
  { malloc_ok := true
    FT_Init_FreeType := some 1
    FT_New_Face := fun _ _ _ => none
    FT_Select_Charmap := fun _ => ((), 0) }

/-- Setup double: everything succeeds. -/
def goodSetup : FTSetup Unit :=
  { malloc_ok := true
    FT_Init_FreeType := some 1
    FT_New_Face := fun _ _ _ => some ()
    FT_Select_Charmap := fun _ => ((), 0) }

/-! ## Auxiliary lemmas: bit operations and the blend -/

theorem or_eq_add_of_lt (a b i : Nat) (h : b < 2 ^ i) : (a * 2 ^ i) ||| b = a * 2 ^ i + b := by
  rw [Nat.mul_comm, ← Nat.mul_add_lt_is_or h]

theorem and_0xFF (x : Nat) : x &&& 0xFF = x % 256 :=
  Nat.and_pow_two_sub_one_eq_mod x 8

theorem pack_eq (r g b : Nat) (hr : r < 256) (hg : g < 256) (hb : b < 256) :
    (0xFF <<< 24) ||| (r <<< 16) ||| (g <<< 8) ||| b
      = 4278190080 + r * 65536 + g * 256 + b := by
  have e1 : (0xFF <<< 24) ||| (r <<< 16) = (255 * 256 + r) * 2 ^ 16 := by
    rw [Nat.shiftLeft_eq, Nat.shiftLeft_eq, or_eq_add_of_lt 0xFF (r * 2 ^ 16) 24 (by omega)]
    omega
  have e2 : ((255 * 256 + r) * 2 ^ 16) ||| (g <<< 8) = ((255 * 256 + r) * 256 + g) * 2 ^ 8 := by
    rw [Nat.shiftLeft_eq, or_eq_add_of_lt _ (g * 2 ^ 8) 16 (by omega)]
    omega
  rw [e1, e2, or_eq_add_of_lt _ b 8 (by omega)]
  omega

theorem blendChannel_le (c d alpha : Nat) (hc : c ≤ 255) (hd : d ≤ 255) (ha : alpha ≤ 255) :
    blendChannel c d alpha ≤ 255 := by
  unfold blendChannel
  have h1 : c * alpha / 255 ≤ alpha :=
    Nat.div_le_of_le_mul (Nat.mul_le_mul hc (Nat.le_refl alpha))
  have h2 : d * (255 - alpha) / 255 ≤ 255 - alpha :=
    Nat.div_le_of_le_mul (Nat.mul_le_mul hd (Nat.le_refl _))
  omega

theorem narrow_blendChannel (c d alpha : Nat) (hc : c ≤ 255) (hd : d ≤ 255)
    (ha : alpha ≤ 255) :
    (c * alpha / 255 + d * (255 - alpha) / 255) % 256 = blendChannel c d alpha := by
  have h := blendChannel_le c d alpha hc hd ha
  unfold blendChannel at h ⊢
  exact Nat.mod_eq_of_lt (by omega)

/-- The stored pixel in arithmetic form. -/
theorem blend_eq (color bg alpha : Nat) (ha : alpha ≤ 255) :
    blend color bg alpha
      = 4278190080
        + blendChannel (color / 65536 % 256) (bg / 65536 % 256) alpha * 65536
        + blendChannel (color / 256 % 256) (bg / 256 % 256) alpha * 256
        + blendChannel (color % 256) (bg % 256) alpha := by
  have hr := blendChannel_le (color / 65536 % 256) (bg / 65536 % 256) alpha
    (by omega) (by omega) ha
  have hg := blendChannel_le (color / 256 % 256) (bg / 256 % 256) alpha
    (by omega) (by omega) ha
  have hb := blendChannel_le (color % 256) (bg % 256) alpha (by omega) (by omega) ha
  unfold blend
  simp only [and_0xFF, Nat.shiftRight_eq_div_pow, Nat.reducePow]
  rw [narrow_blendChannel _ _ _ (by omega) (by omega) ha,
    narrow_blendChannel _ _ _ (by omega) (by omega) ha,
    narrow_blendChannel _ _ _ (by omega) (by omega) ha]
  exact pack_eq _ _ _ (by omega) (by omega) (by omega)

/-- The specification's packed pixel in arithmetic form. -/
theorem spec_pixel_eq (color bg alpha : Nat) (ha : alpha ≤ 255) :
    0xFF000000 |||
        (blendChannel ((color >>> 16) &&& 0xFF) ((bg >>> 16) &&& 0xFF) alpha <<< 16) |||
        (blendChannel ((color >>> 8) &&& 0xFF) ((bg >>> 8) &&& 0xFF) alpha <<< 8) |||
        blendChannel (color &&& 0xFF) (bg &&& 0xFF) alpha
      = blend color bg alpha := by
  rw [blend_eq color bg alpha ha]
  have hr := blendChannel_le (color / 65536 % 256) (bg / 65536 % 256) alpha
    (by omega) (by omega) ha
  have hg := blendChannel_le (color / 256 % 256) (bg / 256 % 256) alpha
    (by omega) (by omega) ha
  have hb := blendChannel_le (color % 256) (bg % 256) alpha (by omega) (by omega) ha
  simp only [and_0xFF, Nat.shiftRight_eq_div_pow, Nat.reducePow]
  exact pack_eq _ _ _ (by omega) (by omega) (by omega)

theorem coverage_le (bitmap : FT_Bitmap) (row col : Nat) : coverage bitmap row col ≤ 255 := by
  unfold coverage
  split
  · dsimp only
    split <;> omega
  · omega

theorem blend_low_bits (color bg color' bg' alpha : Nat) (ha : alpha ≤ 255)
    (hc : color' % 2 ^ 24 = color % 2 ^ 24) (hb : bg' % 2 ^ 24 = bg % 2 ^ 24) :
    blend color' bg' alpha = blend color bg alpha := by
  rw [blend_eq color' bg' alpha ha, blend_eq color bg alpha ha]
  have e1 : color' / 65536 % 256 = color / 65536 % 256 := by omega
  have e2 : color' / 256 % 256 = color / 256 % 256 := by omega
  have e3 : color' % 256 = color % 256 := by omega
  have e4 : bg' / 65536 % 256 = bg / 65536 % 256 := by omega
  have e5 : bg' / 256 % 256 = bg / 256 % 256 := by omega
  have e6 : bg' % 256 = bg % 256 := by omega
  rw [e1, e2, e3, e4, e5, e6]

theorem blend_alpha_byte (color bg alpha : Nat) (ha : alpha ≤ 255) :
    blend color bg alpha / 2 ^ 24 = 0xFF := by
  rw [blend_eq color bg alpha ha]
  have hr := blendChannel_le (color / 65536 % 256) (bg / 65536 % 256) alpha
    (by omega) (by omega) ha
  have hg := blendChannel_le (color / 256 % 256) (bg / 256 % 256) alpha
    (by omega) (by omega) ha
  have hb := blendChannel_le (color % 256) (bg % 256) alpha (by omega) (by omega) ha
  omega

theorem blend_full (color bg : Nat) :
    blend color bg 255 = 0xFF000000 ||| (color &&& 0x00FFFFFF) := by
  rw [blend_eq _ _ _ (Nat.le_refl _)]
  have e : color &&& 0x00FFFFFF = color % 2 ^ 24 := Nat.and_pow_two_sub_one_eq_mod color 24
  rw [e, show (0xFF000000 : Nat) = 255 * 2 ^ 24 by norm_num,
    or_eq_add_of_lt _ _ 24 (Nat.mod_lt _ (by norm_num))]
  unfold blendChannel
  simp only [Nat.sub_self, Nat.mul_zero, Nat.zero_div, Nat.add_zero]
  rw [Nat.mul_div_cancel _ (by norm_num), Nat.mul_div_cancel _ (by norm_num),
    Nat.mul_div_cancel _ (by norm_num)]
  omega


/-! ## Auxiliary lemmas: loops -/

theorem foldl_invariant {α β : Type} (P : α → Prop) (f : α → β → α) (l : List β)
    (a : α) (h0 : P a) (hstep : ∀ acc x, x ∈ l → P acc → P (f acc x)) :
    P (l.foldl f a) := by
  induction l generalizing a with
  | nil => exact h0
  | cons x xs ih =>
    simp only [List.foldl_cons]
    exact ih _ (hstep a x (List.mem_cons_self _ _) h0)
      (fun acc y hy hacc => hstep acc y (List.mem_cons_of_mem _ hy) hacc)

/-- Any property of the canvas kept by every `compositePixel` of the mask is kept by
`compositeGlyph`. -/
theorem compositeGlyph_invariant (bitmap : FT_Bitmap)
    (buf_width buf_height x_start y_start : Int) (color : Nat) (P : Canvas → Prop)
    (hstep : ∀ row col cv, row < bitmap.rows → col < bitmap.width → P cv →
      P (compositePixel bitmap buf_width buf_height x_start y_start color row col cv))
    (cv : Canvas) (h : P cv) :
    P (compositeGlyph bitmap buf_width buf_height x_start y_start color cv) := by
  unfold compositeGlyph
  refine foldl_invariant P _ _ cv h ?_
  intro acc row hrow hacc
  unfold compositeRow
  refine foldl_invariant P _ _ acc hacc ?_
  intro acc2 col hcol hacc2
  exact hstep row col acc2 (List.mem_range.mp hrow) (List.mem_range.mp hcol) hacc2

theorem index_lt (w h px py : Int) (hx0 : 0 ≤ px) (hx : px < w) (hy0 : 0 ≤ py) (hy : py < h) :
    py.toNat * w.toNat + px.toNat < (w * h).toNat := by
  have h1 : ((py.toNat * w.toNat + px.toNat : Nat) : Int) = py * w + px := by
    push_cast
    rw [Int.toNat_of_nonneg hx0, Int.toNat_of_nonneg hy0, Int.toNat_of_nonneg (by omega)]
  have h2 : py * w + px < w * h := by nlinarith
  omega

theorem compositePixel_inBounds (bitmap : FT_Bitmap)
    (buf_width buf_height x_start y_start : Int) (color row col n : Nat) (cv : Canvas)
    (hn : n = (buf_width * buf_height).toNat)
    (h : (∀ wr ∈ cv.writes, wr.InBounds buf_width buf_height n) ∧ cv.buffer.length = n) :
    (∀ wr ∈ (compositePixel bitmap buf_width buf_height x_start y_start color row col
        cv).writes, wr.InBounds buf_width buf_height n) ∧
      (compositePixel bitmap buf_width buf_height x_start y_start color row col
        cv).buffer.length = n := by
  unfold compositePixel
  dsimp only
  split
  · exact h
  · rename_i hg
    split
    · refine ⟨?_, by rw [List.length_set]; exact h.2⟩
      intro wr hwr
      rcases List.mem_append.mp hwr with hold | hnew
      · exact h.1 wr hold
      · rw [List.mem_singleton] at hnew
        subst hnew
        have hx0 : 0 ≤ x_start + (col : Int) := by omega
        have hx1 : x_start + (col : Int) < buf_width := by omega
        have hy0 : 0 ≤ y_start + (row : Int) := by omega
        have hy1 : y_start + (row : Int) < buf_height := by omega
        refine ⟨hx0, hx1, hy0, hy1, ?_, ?_⟩
        · show (((y_start + (row : Int)).toNat * buf_width.toNat +
            (x_start + (col : Int)).toNat : Nat) : Int) = _
          push_cast
          rw [Int.toNat_of_nonneg hx0, Int.toNat_of_nonneg hy0,
            Int.toNat_of_nonneg (by omega)]
        · rw [hn]
          exact index_lt _ _ _ _ hx0 hx1 hy0 hy1
    · exact h

theorem compositePixel_frame (bitmap : FT_Bitmap)
    (buf_width buf_height x_start y_start : Int) (color row col i : Nat) (cv : Canvas)
    (hi : ¬ (coverage bitmap row col > 0 ∧
      0 ≤ x_start + (col : Int) ∧ x_start + (col : Int) < buf_width ∧
      0 ≤ y_start + (row : Int) ∧ y_start + (row : Int) < buf_height ∧
      (y_start + (row : Int)).toNat * buf_width.toNat + (x_start + (col : Int)).toNat = i)) :
    (compositePixel bitmap buf_width buf_height x_start y_start color row col cv).buffer[i]?
      = cv.buffer[i]? := by
  unfold compositePixel
  dsimp only
  split
  · rfl
  · rename_i hg
    split
    · rename_i ha
      have hne : (y_start + (row : Int)).toNat * buf_width.toNat +
          (x_start + (col : Int)).toNat ≠ i := by
        intro heq
        exact hi ⟨ha, by omega, by omega, by omega, by omega, heq⟩
      exact List.getElem?_set_ne hne
    · rfl

/-- One unfolding of the loop on a non-empty memory. -/
theorem renderLoop_cons {σ : Type} (lib : FTLib σ) (buf_width buf_height : Int)
    (color : Nat) (pen_y : Int) (c0 : Nat) (rest : List Nat) (st : Render σ) :
    renderLoop lib buf_width buf_height color pen_y (c0 :: rest) st =
    (let p0 := c0 % 256
    if p0 = 0 then st
    else if p0 &&& 0x80 = 0 then
      renderLoop lib buf_width buf_height color pen_y rest
        (renderGlyph lib buf_width buf_height color pen_y p0 { st with p := st.p + 1 })
    else if p0 &&& 0xE0 = 0xC0 then
      match rest with
      | c1 :: rest2 =>
        let p1 := c1 % 256
        renderLoop lib buf_width buf_height color pen_y rest2
          (renderGlyph lib buf_width buf_height color pen_y
            (((p0 &&& 0x1F) <<< 6) ||| (p1 &&& 0x3F)) { st with p := st.p + 2 })
      | _ => { st with overread := true }
    else if p0 &&& 0xF0 = 0xE0 then
      match rest with
      | c1 :: c2 :: rest3 =>
        let p1 := c1 % 256
        let p2 := c2 % 256
        renderLoop lib buf_width buf_height color pen_y rest3
          (renderGlyph lib buf_width buf_height color pen_y
            (((p0 &&& 0x0F) <<< 12) ||| ((p1 &&& 0x3F) <<< 6) ||| (p2 &&& 0x3F))
            { st with p := st.p + 3 })
      | _ => { st with overread := true }
    else if p0 &&& 0xF8 = 0xF0 then
      match rest with
      | c1 :: c2 :: c3 :: rest4 =>
        let p1 := c1 % 256
        let p2 := c2 % 256
        let p3 := c3 % 256
        renderLoop lib buf_width buf_height color pen_y rest4
          (renderGlyph lib buf_width buf_height color pen_y
            (((p0 &&& 0x07) <<< 18) ||| ((p1 &&& 0x3F) <<< 12) |||
              ((p2 &&& 0x3F) <<< 6) ||| (p3 &&& 0x3F))
            { st with p := st.p + 4 })
      | _ => { st with overread := true }
    else
      renderLoop lib buf_width buf_height color pen_y rest { st with p := st.p + 1 }) := by
  rcases rest with _ | ⟨c1, _ | ⟨c2, _ | ⟨c3, rest4⟩⟩⟩ <;> rfl

/-- Any property of the state kept by `renderGlyph`, by moving the cursor and by flagging an
over-read is kept by the whole loop. -/
theorem renderLoop_invariant {σ : Type} (lib : FTLib σ) (buf_width buf_height : Int)
    (color : Nat) (pen_y : Int) (P : Render σ → Prop)
    (hglyph : ∀ cp st, P st → P (renderGlyph lib buf_width buf_height color pen_y cp st))
    (hp : ∀ st n, P st → P { st with p := n })
    (hover : ∀ st, P st → P { st with overread := true })
    (text : List Nat) (st : Render σ) (h : P st) :
    P (renderLoop lib buf_width buf_height color pen_y text st) := by
  induction text, st using renderLoop.induct lib buf_width buf_height color pen_y with
  | case1 st => exact hover st h
  | case2 c0 rest st p0 h0 => 
    rw [renderLoop_cons]; dsimp only; rw [if_pos h0]
    exact h
  | case3 c0 rest st p0 h0 h1 ih =>
    rw [renderLoop_cons]; dsimp only; rw [if_neg h0, if_pos h1]
    exact ih (hglyph _ _ (hp _ _ h))
  | case4 c0 st p0 h0 h1 h2 c1 rest2 p1 ih =>
    rw [renderLoop_cons]; dsimp only; rw [if_neg h0, if_neg h1, if_pos h2]
    exact ih (hglyph _ _ (hp _ _ h))
  | case5 c0 rest st p0 h0 h1 h2 hne =>
    rw [renderLoop_cons]; dsimp only; rw [if_neg h0, if_neg h1, if_pos h2]
    split
    · exact absurd rfl (hne _ _)
    · exact hover st h
  | case6 c0 st p0 h0 h1 h2 h3 c1 c2 rest3 p1 p2 ih =>
    rw [renderLoop_cons]; dsimp only; rw [if_neg h0, if_neg h1, if_neg h2, if_pos h3]
    exact ih (hglyph _ _ (hp _ _ h))
  | case7 c0 rest st p0 h0 h1 h2 h3 hne =>
    rw [renderLoop_cons]; dsimp only; rw [if_neg h0, if_neg h1, if_neg h2, if_pos h3]
    split
    · exact absurd rfl (hne _ _ _)
    · exact hover st h
  | case8 c0 st p0 h0 h1 h2 h3 h4 c1 c2 c3 rest4 p1 p2 p3 ih =>
    rw [renderLoop_cons]; dsimp only; rw [if_neg h0, if_neg h1, if_neg h2, if_neg h3, if_pos h4]
    exact ih (hglyph _ _ (hp _ _ h))
  | case9 c0 rest st p0 h0 h1 h2 h3 h4 hne =>
    rw [renderLoop_cons]; dsimp only; rw [if_neg h0, if_neg h1, if_neg h2, if_neg h3, if_pos h4]
    split
    · exact absurd rfl (hne _ _ _ _)
    · exact hover st h
  | case10 c0 rest st p0 h0 h1 h2 h3 h4 ih =>
    rw [renderLoop_cons]; dsimp only; rw [if_neg h0, if_neg h1, if_neg h2, if_neg h3, if_neg h4]
    exact ih (hp _ _ h)

theorem renderGlyph_calls {σ : Type} (lib : FTLib σ) (buf_width buf_height : Int)
    (color : Nat) (pen_y : Int) (cp : Nat) (st : Render σ) :
    (renderGlyph lib buf_width buf_height color pen_y cp st).calls
      = st.calls ++ [FTCall.Load_Char cp] := by
  unfold renderGlyph
  split <;> rfl

theorem renderGlyph_p {σ : Type} (lib : FTLib σ) (buf_width buf_height : Int)
    (color : Nat) (pen_y : Int) (cp : Nat) (st : Render σ) :
    (renderGlyph lib buf_width buf_height color pen_y cp st).p = st.p := by
  unfold renderGlyph
  split <;> rfl

theorem renderGlyph_overread {σ : Type} (lib : FTLib σ) (buf_width buf_height : Int)
    (color : Nat) (pen_y : Int) (cp : Nat) (st : Render σ) :
    (renderGlyph lib buf_width buf_height color pen_y cp st).overread = st.overread := by
  unfold renderGlyph
  split <;> rfl

theorem loadedCodepoints_append (xs ys : List FTCall) :
    loadedCodepoints (xs ++ ys) = loadedCodepoints xs ++ loadedCodepoints ys := by
  induction xs with
  | nil => rfl
  | cons c cs ih =>
    cases c with
    | Set_Pixel_Sizes a b => simpa [loadedCodepoints] using ih
    | Load_Char k => simpa [loadedCodepoints] using ih

theorem renderGlyph_inBounds {σ : Type} (lib : FTLib σ) (buf_width buf_height : Int)
    (color : Nat) (pen_y : Int) (cp n : Nat) (st : Render σ)
    (hn : n = (buf_width * buf_height).toNat)
    (h : (∀ wr ∈ st.writes, wr.InBounds buf_width buf_height n) ∧ st.buffer.length = n) :
    (∀ wr ∈ (renderGlyph lib buf_width buf_height color pen_y cp st).writes,
        wr.InBounds buf_width buf_height n) ∧
      (renderGlyph lib buf_width buf_height color pen_y cp st).buffer.length = n := by
  unfold renderGlyph
  split
  · exact h
  · rename_i face' glyph hload
    exact compositeGlyph_invariant glyph.bitmap buf_width buf_height _ _ color
      (fun cv =>
        (∀ wr ∈ cv.writes, wr.InBounds buf_width buf_height n) ∧ cv.buffer.length = n)
      (fun row col cv _ _ hcv =>
        compositePixel_inBounds glyph.bitmap buf_width buf_height _ _ color row col n cv hn hcv)
      { buffer := st.buffer, writes := st.writes } h

theorem renderGlyph_frame {σ : Type} (lib : FTLib σ) (buf_width buf_height : Int)
    (color : Nat) (pen_y : Int) (cp : Nat) (buffer0 : List Nat) (st : Render σ)
    (h : ∀ i, (∀ pl ∈ st.placed, ¬ pl.covers buf_width buf_height i) →
      st.buffer[i]? = buffer0[i]?) :
    ∀ i, (∀ pl ∈ (renderGlyph lib buf_width buf_height color pen_y cp st).placed,
        ¬ pl.covers buf_width buf_height i) →
      (renderGlyph lib buf_width buf_height color pen_y cp st).buffer[i]? = buffer0[i]? := by
  unfold renderGlyph
  split
  · exact h
  · rename_i face' glyph hload
    intro i hpl
    dsimp only at hpl ⊢
    have hold : st.buffer[i]? = buffer0[i]? :=
      h i (fun pl hmem => hpl pl (List.mem_append_left _ hmem))
    have hnew := hpl ⟨st.pen_x + glyph.bitmap_left, pen_y - glyph.bitmap_top, glyph⟩
      (List.mem_append_right _ (List.mem_singleton_self _))
    rw [← hold]
    exact compositeGlyph_invariant glyph.bitmap buf_width buf_height _ _ color
      (fun cv => cv.buffer[i]? = st.buffer[i]?)
      (fun row col cv hrow hcol hcv => by
        rw [← hcv]
        apply compositePixel_frame
        intro hc
        exact hnew ⟨row, col, hrow, hcol, hc⟩)
      { buffer := st.buffer, writes := st.writes } rfl

/-! ## Compositing claims -/

/-- C1: in a call of `vfont_render_text` on a buffer of `buf_width * buf_height` pixels,
whatever the pen position, the text and the glyphs returned by the library, every store
targets coordinates `0 ≤ px < buf_width`, `0 ≤ py < buf_height`, its index is
`py * buf_width + px` and lies below the buffer length, and the buffer keeps its length. -/
theorem render_text_writes_in_bounds {σ : Type} (lib : FTLib σ)
    (handle : Option (VFontInternal σ)) (text : Option (List Nat)) (buffer : List Nat)
    (buf_width buf_height x y : Int) (color : Nat) (size : Int)
    (hlen : buffer.length = (buf_width * buf_height).toNat) :
    (∀ wr ∈ (vfont_render_text lib handle text (some buffer) buf_width buf_height x y color
          size).writes,
        0 ≤ wr.px ∧ wr.px < buf_width ∧ 0 ≤ wr.py ∧ wr.py < buf_height ∧
          (wr.index : Int) = wr.py * buf_width + wr.px ∧ wr.index < buffer.length) ∧
      ∃ b, (vfont_render_text lib handle text (some buffer) buf_width buf_height x y color
          size).buffer = some b ∧ b.length = buffer.length := by
  unfold vfont_render_text
  cases handle with
  | none => exact ⟨fun wr hwr => absurd hwr (List.not_mem_nil wr), buffer, rfl, rfl⟩
  | some font =>
    cases text with
    | none => exact ⟨fun wr hwr => absurd hwr (List.not_mem_nil wr), buffer, rfl, rfl⟩
    | some txt =>
      dsimp only
      split
      · exact ⟨fun wr hwr => absurd hwr (List.not_mem_nil wr), buffer, rfl, rfl⟩
      · have hinv := renderLoop_invariant lib buf_width buf_height color
          (y + (resolveSize lib font size).2.1)
          (fun st => (∀ wr ∈ st.writes, wr.InBounds buf_width buf_height buffer.length) ∧
            st.buffer.length = buffer.length)
          (fun cp st hst =>
            renderGlyph_inBounds lib buf_width buf_height color _ cp buffer.length st hlen hst)
          (fun st n hst => hst) (fun st hst => hst) txt
          { face := (resolveSize lib font size).1.face, buffer := buffer, pen_x := x, p := 0,
            overread := false, calls := (resolveSize lib font size).2.2, placed := [],
            writes := [] }
          ⟨fun wr hwr => absurd hwr (List.not_mem_nil wr), rfl⟩
        exact ⟨hinv.1, _, rfl, hinv.2⟩

/-- Witness for C1: a 3 by 4 buffer, one glyph written at `(0, 2)`. -/
theorem render_text_writes_in_bounds_witness :
    (List.replicate 12 0).length = ((3 : Int) * 4).toNat ∧
    ((∀ wr ∈ (vfont_render_text (dotLib 255) (some (testFont 2)) (some [0x41, 0])
          (some (List.replicate 12 0)) 3 4 0 0 0xFF0000 0).writes,
        0 ≤ wr.px ∧ wr.px < 3 ∧ 0 ≤ wr.py ∧ wr.py < 4 ∧
          (wr.index : Int) = wr.py * 3 + wr.px ∧ wr.index < (List.replicate 12 0).length) ∧
      ∃ b, (vfont_render_text (dotLib 255) (some (testFont 2)) (some [0x41, 0])
          (some (List.replicate 12 0)) 3 4 0 0 0xFF0000 0).buffer = some b ∧
        b.length = (List.replicate 12 0).length) :=
  ⟨by decide, render_text_writes_in_bounds (dotLib 255) (some (testFont 2)) (some [0x41, 0])
    (List.replicate 12 0) 3 4 0 0 0xFF0000 0 (by decide)⟩

/-- C2: for a mask pixel of coverage `alpha` in 1..255 that lands in bounds, the stored
pixel is `0xFF000000 | r<<16 | g<<8 | b` with each channel
`channel(color)*alpha/255 + channel(bg)*(255-alpha)/255` (truncating divisions); the
stored value does not depend on the alpha bytes of `color` and of the background, and
its own alpha byte is `0xFF`. -/
theorem blend_written_pixel (bitmap : FT_Bitmap) (buf_width buf_height x_start y_start : Int)
    (color row col : Nat) (cv : Canvas) (alpha : Nat)
    (hx : 0 ≤ x_start + (col : Int) ∧ x_start + (col : Int) < buf_width)
    (hy : 0 ≤ y_start + (row : Int) ∧ y_start + (row : Int) < buf_height)
    (hcov : coverage bitmap row col = alpha) (h1 : 1 ≤ alpha) (h255 : alpha ≤ 255) :
    (compositePixel bitmap buf_width buf_height x_start y_start color row col cv).buffer
        = cv.buffer.set
            ((y_start + (row : Int)).toNat * buf_width.toNat + (x_start + (col : Int)).toNat)
            (specPixel color
              (cv.buffer.getD ((y_start + (row : Int)).toNat * buf_width.toNat +
                (x_start + (col : Int)).toNat) 0) alpha) ∧
      (∀ bg : Nat, blend color bg alpha = specPixel color bg alpha) ∧
      (∀ bg color' bg' : Nat, color' % 2 ^ 24 = color % 2 ^ 24 → bg' % 2 ^ 24 = bg % 2 ^ 24 →
        blend color' bg' alpha = blend color bg alpha) ∧
      (∀ bg : Nat, blend color bg alpha / 2 ^ 24 = 0xFF) := by
  refine ⟨?_, fun bg => (spec_pixel_eq color bg alpha h255).symm,
    fun bg color' bg' hc hb => blend_low_bits color bg color' bg' alpha h255 hc hb,
    fun bg => blend_alpha_byte color bg alpha h255⟩
  unfold compositePixel
  dsimp only
  rw [if_neg (by omega), hcov, if_pos (by omega)]
  unfold specPixel
  rw [spec_pixel_eq _ _ _ h255]

/-- Witness for C2: half coverage (128) of red over a white pixel. -/
theorem blend_written_pixel_witness :
    (0 ≤ (0 : Int) + ((0 : Nat) : Int) ∧ (0 : Int) + ((0 : Nat) : Int) < 3) ∧
    (0 ≤ (2 : Int) + ((0 : Nat) : Int) ∧ (2 : Int) + ((0 : Nat) : Int) < 4) ∧
    coverage (dotGlyph 128).bitmap 0 0 = 128 ∧ 1 ≤ 128 ∧ 128 ≤ 255 ∧
    ((compositePixel (dotGlyph 128).bitmap 3 4 0 2 0xFF0000 0 0
        { buffer := List.replicate 12 0xFFFFFFFF, writes := [] }).buffer
        = (List.replicate 12 0xFFFFFFFF).set
            (((2 : Int) + ((0 : Nat) : Int)).toNat * (3 : Int).toNat +
              ((0 : Int) + ((0 : Nat) : Int)).toNat)
            (specPixel 0xFF0000
              ((List.replicate 12 0xFFFFFFFF).getD (((2 : Int) + ((0 : Nat) : Int)).toNat *
                (3 : Int).toNat + ((0 : Int) + ((0 : Nat) : Int)).toNat) 0) 128) ∧
      (∀ bg : Nat, blend 0xFF0000 bg 128 = specPixel 0xFF0000 bg 128) ∧
      (∀ bg color' bg' : Nat, color' % 2 ^ 24 = 0xFF0000 % 2 ^ 24 →
        bg' % 2 ^ 24 = bg % 2 ^ 24 → blend color' bg' 128 = blend 0xFF0000 bg 128) ∧
      (∀ bg : Nat, blend 0xFF0000 bg 128 / 2 ^ 24 = 0xFF)) :=
  ⟨by decide, by decide, by decide, by decide, by decide,
    blend_written_pixel (dotGlyph 128).bitmap 3 4 0 2 0xFF0000 0 0
      { buffer := List.replicate 12 0xFFFFFFFF, writes := [] } 128
      (by decide) (by decide) (by decide) (by decide) (by decide)⟩

/-- C3: with full coverage (`alpha = 255`) the stored pixel is
`0xFF000000 | (color & 0x00FFFFFF)` for every colour and background; red `0x00FF0000`
over `0xFFFFFFFF` gives `0xFFFF0000`. -/
theorem blend_full_coverage :
    (∀ color bg : Nat, blend color bg 255 = 0xFF000000 ||| (color &&& 0x00FFFFFF)) ∧
      blend 0x00FF0000 0xFFFFFFFF 255 = 0xFFFF0000 :=
  ⟨blend_full, by decide⟩

/-- C4: after `vfont_render_text`, the pixel at index `i` equals its value before the
call unless some successfully loaded glyph has a mask pixel of coverage above 0 that
lands in bounds on `i`; when every loaded glyph has coverage 0 everywhere the buffer is
unchanged. -/
theorem render_text_frame {σ : Type} (lib : FTLib σ) (handle : Option (VFontInternal σ))
    (text : Option (List Nat)) (buffer : List Nat) (buf_width buf_height x y : Int)
    (color : Nat) (size : Int) :
    ∃ b, (vfont_render_text lib handle text (some buffer) buf_width buf_height x y color
        size).buffer = some b ∧
      (∀ i, (∀ pl ∈ (vfont_render_text lib handle text (some buffer) buf_width buf_height
            x y color size).placed, ¬ pl.covers buf_width buf_height i) →
          b[i]? = buffer[i]?) ∧
      ((∀ pl ∈ (vfont_render_text lib handle text (some buffer) buf_width buf_height x y
            color size).placed, ∀ row col, coverage pl.glyph.bitmap row col = 0) →
          b = buffer) := by
  have key : ∃ b, (vfont_render_text lib handle text (some buffer) buf_width buf_height x y
      color size).buffer = some b ∧
      (∀ i, (∀ pl ∈ (vfont_render_text lib handle text (some buffer) buf_width buf_height
            x y color size).placed, ¬ pl.covers buf_width buf_height i) →
          b[i]? = buffer[i]?) := by
    unfold vfont_render_text
    cases handle with
    | none => exact ⟨buffer, rfl, fun i _ => rfl⟩
    | some font =>
      cases text with
      | none => exact ⟨buffer, rfl, fun i _ => rfl⟩
      | some txt =>
        dsimp only
        split
        · exact ⟨buffer, rfl, fun i _ => rfl⟩
        · exact ⟨_, rfl, renderLoop_invariant lib buf_width buf_height color
            (y + (resolveSize lib font size).2.1)
            (fun st => ∀ i, (∀ pl ∈ st.placed, ¬ pl.covers buf_width buf_height i) →
              st.buffer[i]? = buffer[i]?)
            (fun cp st hst => renderGlyph_frame lib buf_width buf_height color _ cp buffer st hst)
            (fun st n hst => hst) (fun st hst => hst) txt
            { face := (resolveSize lib font size).1.face, buffer := buffer, pen_x := x, p := 0,
              overread := false, calls := (resolveSize lib font size).2.2, placed := [],
              writes := [] }
            (fun i _ => rfl)⟩
  obtain ⟨b, hb, hframe⟩ := key
  refine ⟨b, hb, hframe, ?_⟩
  intro hzero
  apply List.ext_getElem?
  intro i
  apply hframe i
  rintro pl hpl ⟨row, col, -, -, hc, -⟩
  rw [hzero pl hpl row col] at hc
  exact absurd hc (by decide)

/-! ## Auxiliary lemmas: UTF-8 bytes -/

set_option maxRecDepth 100000 in
theorem junk_byte_facts : ∀ b < 256, (b &&& 0xC0 = 0x80 ∨ b &&& 0xF8 = 0xF8) →
    b % 256 ≠ 0 ∧ (b % 256) &&& 0x80 ≠ 0 ∧ (b % 256) &&& 0xE0 ≠ 0xC0 ∧
      (b % 256) &&& 0xF0 ≠ 0xE0 ∧ (b % 256) &&& 0xF8 ≠ 0xF0 := by
  decide

set_option maxRecDepth 100000 in
theorem ascii_byte_facts : ∀ c < 128, 1 ≤ c →
    c % 256 ≠ 0 ∧ (c % 256) &&& 0x80 = 0 ∧ c % 256 = c := by
  decide

set_option maxRecDepth 100000 in
theorem lead2_byte_facts : ∀ a < 32,
    (0xC0 ||| a) % 256 ≠ 0 ∧ ((0xC0 ||| a) % 256) &&& 0x80 ≠ 0 ∧
      ((0xC0 ||| a) % 256) &&& 0xE0 = 0xC0 ∧ ((0xC0 ||| a) % 256) &&& 0x1F = a := by
  decide

set_option maxRecDepth 100000 in
theorem lead3_byte_facts : ∀ a < 16,
    (0xE0 ||| a) % 256 ≠ 0 ∧ ((0xE0 ||| a) % 256) &&& 0x80 ≠ 0 ∧
      ((0xE0 ||| a) % 256) &&& 0xE0 ≠ 0xC0 ∧ ((0xE0 ||| a) % 256) &&& 0xF0 = 0xE0 ∧
      ((0xE0 ||| a) % 256) &&& 0x0F = a := by
  decide

set_option maxRecDepth 100000 in
theorem lead4_byte_facts : ∀ a < 8,
    (0xF0 ||| a) % 256 ≠ 0 ∧ ((0xF0 ||| a) % 256) &&& 0x80 ≠ 0 ∧
      ((0xF0 ||| a) % 256) &&& 0xE0 ≠ 0xC0 ∧ ((0xF0 ||| a) % 256) &&& 0xF0 ≠ 0xE0 ∧
      ((0xF0 ||| a) % 256) &&& 0xF8 = 0xF0 ∧ ((0xF0 ||| a) % 256) &&& 0x07 = a := by
  decide

set_option maxRecDepth 100000 in
theorem cont_byte_facts : ∀ b < 64, ((0x80 ||| b) % 256) &&& 0x3F = b := by
  decide

theorem and_0x3F (x : Nat) : x &&& 0x3F = x % 64 :=
  Nat.and_pow_two_sub_one_eq_mod x 6

theorem join2 (c : Nat) : ((c >>> 6) <<< 6) ||| (c &&& 0x3F) = c := by
  rw [and_0x3F, Nat.shiftLeft_eq, Nat.shiftRight_eq_div_pow,
    or_eq_add_of_lt _ _ 6 (by omega)]
  omega

theorem join3 (c : Nat) :
    ((c >>> 12) <<< 12) ||| (((c >>> 6) &&& 0x3F) <<< 6) ||| (c &&& 0x3F) = c := by
  simp only [and_0x3F, Nat.shiftLeft_eq, Nat.shiftRight_eq_div_pow]
  have e1 : c / 2 ^ 12 * 2 ^ 12 ||| c / 2 ^ 6 % 64 * 2 ^ 6
      = (c / 2 ^ 12 * 2 ^ 6 + c / 2 ^ 6 % 64) * 2 ^ 6 := by
    rw [or_eq_add_of_lt _ _ 12 (by omega)]
    omega
  rw [e1, or_eq_add_of_lt _ _ 6 (by omega)]
  omega

theorem join4 (c : Nat) :
    ((c >>> 18) <<< 18) ||| (((c >>> 12) &&& 0x3F) <<< 12) |||
      (((c >>> 6) &&& 0x3F) <<< 6) ||| (c &&& 0x3F) = c := by
  simp only [and_0x3F, Nat.shiftLeft_eq, Nat.shiftRight_eq_div_pow]
  have e1 : c / 2 ^ 18 * 2 ^ 18 ||| c / 2 ^ 12 % 64 * 2 ^ 12
      = (c / 2 ^ 18 * 2 ^ 6 + c / 2 ^ 12 % 64) * 2 ^ 12 := by
    rw [or_eq_add_of_lt _ _ 18 (by omega)]
    omega
  have e2 : (c / 2 ^ 18 * 2 ^ 6 + c / 2 ^ 12 % 64) * 2 ^ 12 ||| c / 2 ^ 6 % 64 * 2 ^ 6
      = ((c / 2 ^ 18 * 2 ^ 6 + c / 2 ^ 12 % 64) * 2 ^ 6 + c / 2 ^ 6 % 64) * 2 ^ 6 := by
    rw [or_eq_add_of_lt _ _ 12 (by omega)]
    omega
  rw [e1, e2, or_eq_add_of_lt _ _ 6 (by omega)]
  omega

theorem renderLoop_stop {σ : Type} (lib : FTLib σ) (buf_width buf_height : Int)
    (color : Nat) (pen_y : Int) (c0 : Nat) (rest : List Nat) (st : Render σ)
    (h0 : c0 % 256 = 0) :
    renderLoop lib buf_width buf_height color pen_y (c0 :: rest) st = st := by
  rw [renderLoop_cons]
  dsimp only
  rw [if_pos h0]

theorem renderLoop_skip {σ : Type} (lib : FTLib σ) (buf_width buf_height : Int)
    (color : Nat) (pen_y : Int) (c0 : Nat) (rest : List Nat) (st : Render σ)
    (h0 : c0 % 256 ≠ 0) (h1 : (c0 % 256) &&& 0x80 ≠ 0) (h2 : (c0 % 256) &&& 0xE0 ≠ 0xC0)
    (h3 : (c0 % 256) &&& 0xF0 ≠ 0xE0) (h4 : (c0 % 256) &&& 0xF8 ≠ 0xF0) :
    renderLoop lib buf_width buf_height color pen_y (c0 :: rest) st
      = renderLoop lib buf_width buf_height color pen_y rest { st with p := st.p + 1 } := by
  rw [renderLoop_cons]
  dsimp only
  rw [if_neg h0, if_neg h1, if_neg h2, if_neg h3, if_neg h4]

/-- The loop consumes the standard encoding of one code point and hands exactly that code
point to `renderGlyph`. -/
theorem renderLoop_utf8Encode {σ : Type} (lib : FTLib σ) (buf_width buf_height : Int)
    (color : Nat) (pen_y : Int) (c : Nat) (tail : List Nat) (st : Render σ)
    (h1 : 1 ≤ c) (h2 : c ≤ 0x10FFFF) :
    renderLoop lib buf_width buf_height color pen_y (utf8Encode c ++ tail) st
      = renderLoop lib buf_width buf_height color pen_y tail
          (renderGlyph lib buf_width buf_height color pen_y c
            { st with p := st.p + (utf8Encode c).length }) := by
  unfold utf8Encode
  split
  · rename_i hc
    obtain ⟨f0, f1, f2⟩ := ascii_byte_facts c hc h1
    rw [List.singleton_append, renderLoop_cons]
    dsimp only
    rw [if_neg f0, if_pos f1, f2]
    rfl
  · split
    · rename_i hc
      have ha : c >>> 6 < 32 := by rw [Nat.shiftRight_eq_div_pow]; omega
      have hb : c &&& 0x3F < 64 := by rw [and_0x3F]; omega
      obtain ⟨f0, f1, f2, f3⟩ := lead2_byte_facts _ ha
      have g1 := cont_byte_facts _ hb
      rw [List.cons_append, List.singleton_append, renderLoop_cons]
      dsimp only
      rw [if_neg f0, if_neg f1, if_pos f2, f3, g1, join2]
      rfl
    · split
      · rename_i hc
        have ha : c >>> 12 < 16 := by rw [Nat.shiftRight_eq_div_pow]; omega
        have hb : (c >>> 6) &&& 0x3F < 64 := by rw [and_0x3F]; omega
        have hd : c &&& 0x3F < 64 := by rw [and_0x3F]; omega
        obtain ⟨f0, f1, f2, f3, f4⟩ := lead3_byte_facts _ ha
        have g1 := cont_byte_facts _ hb
        have g2 := cont_byte_facts _ hd
        rw [List.cons_append, List.cons_append, List.singleton_append, renderLoop_cons]
        dsimp only
        rw [if_neg f0, if_neg f1, if_neg f2, if_pos f3, f4, g1, g2, join3]
        rfl
      · have ha : c >>> 18 < 8 := by rw [Nat.shiftRight_eq_div_pow]; omega
        have hb : (c >>> 12) &&& 0x3F < 64 := by rw [and_0x3F]; omega
        have hd : (c >>> 6) &&& 0x3F < 64 := by rw [and_0x3F]; omega
        have he : c &&& 0x3F < 64 := by rw [and_0x3F]; omega
        obtain ⟨f0, f1, f2, f3, f4, f5⟩ := lead4_byte_facts _ ha
        have g1 := cont_byte_facts _ hb
        have g2 := cont_byte_facts _ hd
        have g3 := cont_byte_facts _ he
        rw [List.cons_append, List.cons_append, List.cons_append, List.singleton_append,
          renderLoop_cons]
        dsimp only
        rw [if_neg f0, if_neg f1, if_neg f2, if_neg f3, if_pos f4, f5, g1, g2, g3, join4]
        rfl

/-! ## Decoding claims -/

theorem loadedCodepoints_resolveSize {σ : Type} (lib : FTLib σ) (font : VFontInternal σ)
    (size : Int) : loadedCodepoints (resolveSize lib font size).2.2 = [] := by
  unfold resolveSize
  split
  · rfl
  · split <;> rfl

/-- Bytes that match no leading pattern are skipped one at a time up to the terminator,
touching nothing but the cursor. -/
theorem renderLoop_junk {σ : Type} (lib : FTLib σ) (buf_width buf_height : Int)
    (color : Nat) (pen_y : Int) (junk rest : List Nat)
    (hjunk : ∀ b ∈ junk, b < 256 ∧ (b &&& 0xC0 = 0x80 ∨ b &&& 0xF8 = 0xF8))
    (st : Render σ) :
    renderLoop lib buf_width buf_height color pen_y (junk ++ 0 :: rest) st
      = { st with p := st.p + junk.length } := by
  induction junk generalizing st with
  | nil => exact renderLoop_stop lib buf_width buf_height color pen_y 0 rest st rfl
  | cons b bs ih =>
    obtain ⟨hb, hpat⟩ := hjunk b (List.mem_cons_self _ _)
    obtain ⟨f0, f1, f2, f3, f4⟩ := junk_byte_facts b hb hpat
    rw [List.cons_append, renderLoop_skip lib buf_width buf_height color pen_y b _ st f0 f1 f2
      f3 f4, ih (fun c hc => hjunk c (List.mem_cons_of_mem _ hc))]
    simp only [List.length_cons, Nat.add_assoc, Nat.add_comm 1]

/-- On the standard encoding of `cps` followed by the terminator, the loop requests
exactly `cps`, in order, and stops on the terminator. -/
theorem renderLoop_utf8EncodeAll {σ : Type} (lib : FTLib σ) (buf_width buf_height : Int)
    (color : Nat) (pen_y : Int) (cps rest : List Nat)
    (hcps : ∀ c ∈ cps, 1 ≤ c ∧ c ≤ 0x10FFFF) (st : Render σ) :
    loadedCodepoints
        (renderLoop lib buf_width buf_height color pen_y (utf8EncodeAll cps ++ 0 :: rest)
          st).calls = loadedCodepoints st.calls ++ cps ∧
      (renderLoop lib buf_width buf_height color pen_y (utf8EncodeAll cps ++ 0 :: rest)
          st).overread = st.overread ∧
      (renderLoop lib buf_width buf_height color pen_y (utf8EncodeAll cps ++ 0 :: rest)
          st).p = st.p + (utf8EncodeAll cps).length := by
  induction cps generalizing st with
  | nil =>
    rw [utf8EncodeAll, List.nil_append,
      renderLoop_stop lib buf_width buf_height color pen_y 0 rest st rfl]
    simp
  | cons c cs ih =>
    obtain ⟨h1, h2⟩ := hcps c (List.mem_cons_self _ _)
    rw [utf8EncodeAll, List.append_assoc,
      renderLoop_utf8Encode lib buf_width buf_height color pen_y c _ st h1 h2]
    obtain ⟨i1, i2, i3⟩ := ih (fun d hd => hcps d (List.mem_cons_of_mem _ hd))
      (renderGlyph lib buf_width buf_height color pen_y c
        { st with p := st.p + (utf8Encode c).length })
    rw [i1, i2, i3, renderGlyph_calls, renderGlyph_overread, renderGlyph_p,
      loadedCodepoints_append]
    refine ⟨?_, rfl, ?_⟩
    · simp [loadedCodepoints]
    · simp only [List.length_append, Nat.add_assoc]

/-- C5: rendering the empty string, or a string made only of bytes of the form
`10xxxxxx` or `11111xxx`, requests no glyph from the library, composites nothing and
leaves the buffer unchanged. -/
theorem render_text_junk_bytes_noop {σ : Type} (lib : FTLib σ) (font : VFontInternal σ)
    (junk rest : List Nat) (buffer : List Nat) (buf_width buf_height x y : Int)
    (color : Nat) (size : Int)
    (hjunk : ∀ b ∈ junk, b < 256 ∧ (b &&& 0xC0 = 0x80 ∨ b &&& 0xF8 = 0xF8)) :
    (vfont_render_text lib (some font) (some (junk ++ 0 :: rest)) (some buffer) buf_width
        buf_height x y color size).buffer = some buffer ∧
      loadedCodepoints (vfont_render_text lib (some font) (some (junk ++ 0 :: rest))
        (some buffer) buf_width buf_height x y color size).calls = [] ∧
      (vfont_render_text lib (some font) (some (junk ++ 0 :: rest)) (some buffer) buf_width
        buf_height x y color size).writes = [] ∧
      (vfont_render_text lib (some font) (some (junk ++ 0 :: rest)) (some buffer) buf_width
        buf_height x y color size).placed = [] ∧
      (vfont_render_text lib (some font) (some (junk ++ 0 :: rest)) (some buffer) buf_width
        buf_height x y color size).overread = false := by
  unfold vfont_render_text
  dsimp only
  split
  · exact ⟨rfl, rfl, rfl, rfl, rfl⟩
  · rw [renderLoop_junk lib buf_width buf_height color _ junk rest hjunk]
    exact ⟨rfl, loadedCodepoints_resolveSize lib font size, rfl, rfl, rfl⟩

/-- Witness for C5: the malformed bytes `0x80 0xBF 0xF8 0xFF` before the terminator. -/
theorem render_text_junk_bytes_noop_witness :
    (∀ b ∈ [0x80, 0xBF, 0xF8, 0xFF], b < 256 ∧ (b &&& 0xC0 = 0x80 ∨ b &&& 0xF8 = 0xF8)) ∧
    ((vfont_render_text (dotLib 255) (some (testFont 2))
        (some ([0x80, 0xBF, 0xF8, 0xFF] ++ 0 :: [])) (some (List.replicate 12 7)) 3 4 0 0
        0xFF0000 0).buffer = some (List.replicate 12 7) ∧
      loadedCodepoints (vfont_render_text (dotLib 255) (some (testFont 2))
        (some ([0x80, 0xBF, 0xF8, 0xFF] ++ 0 :: [])) (some (List.replicate 12 7)) 3 4 0 0
        0xFF0000 0).calls = [] ∧
      (vfont_render_text (dotLib 255) (some (testFont 2))
        (some ([0x80, 0xBF, 0xF8, 0xFF] ++ 0 :: [])) (some (List.replicate 12 7)) 3 4 0 0
        0xFF0000 0).writes = [] ∧
      (vfont_render_text (dotLib 255) (some (testFont 2))
        (some ([0x80, 0xBF, 0xF8, 0xFF] ++ 0 :: [])) (some (List.replicate 12 7)) 3 4 0 0
        0xFF0000 0).placed = [] ∧
      (vfont_render_text (dotLib 255) (some (testFont 2))
        (some ([0x80, 0xBF, 0xF8, 0xFF] ++ 0 :: [])) (some (List.replicate 12 7)) 3 4 0 0
        0xFF0000 0).overread = false) :=
  ⟨by decide, render_text_junk_bytes_noop (dotLib 255) (testFont 2) [0x80, 0xBF, 0xF8, 0xFF]
    [] (List.replicate 12 7) 3 4 0 0 0xFF0000 0 (by decide)⟩

/-- C6: when the text is the standard UTF-8 encoding of code points in `1..0x10FFFF`
followed by the terminator, the code points passed to the glyph loader are exactly that
list, in order; the loop stops on the terminator without reading past it. -/
theorem decode_utf8Encode_roundtrip {σ : Type} (lib : FTLib σ) (font : VFontInternal σ)
    (cps rest : List Nat) (buffer : List Nat) (buf_width buf_height x y : Int)
    (color : Nat) (size : Int) (hw : 0 < buf_width) (hh : 0 < buf_height)
    (hcps : ∀ c ∈ cps, 1 ≤ c ∧ c ≤ 0x10FFFF) :
    loadedCodepoints (vfont_render_text lib (some font) (some (utf8EncodeAll cps ++ 0 :: rest))
        (some buffer) buf_width buf_height x y color size).calls = cps ∧
      (vfont_render_text lib (some font) (some (utf8EncodeAll cps ++ 0 :: rest))
        (some buffer) buf_width buf_height x y color size).overread = false ∧
      (vfont_render_text lib (some font) (some (utf8EncodeAll cps ++ 0 :: rest))
        (some buffer) buf_width buf_height x y color size).p = (utf8EncodeAll cps).length := by
  unfold vfont_render_text
  dsimp only
  rw [if_neg (by omega)]
  obtain ⟨i1, i2, i3⟩ := renderLoop_utf8EncodeAll lib buf_width buf_height color
    (y + (resolveSize lib font size).2.1) cps rest hcps
    { face := (resolveSize lib font size).1.face, buffer := buffer, pen_x := x, p := 0,
      overread := false, calls := (resolveSize lib font size).2.2, placed := [],
      writes := [] }
  refine ⟨?_, i2, ?_⟩
  · rw [i1, loadedCodepoints_resolveSize]
    rfl
  · rw [i3]
    exact Nat.zero_add _

/-- Witness for C6: one code point of each encoded length. -/
theorem decode_utf8Encode_roundtrip_witness :
    (0 : Int) < 3 ∧ (0 : Int) < 4 ∧
    (∀ c ∈ [0x41, 0xE9, 0x20AC, 0x1F600], 1 ≤ c ∧ c ≤ 0x10FFFF) ∧
    (loadedCodepoints (vfont_render_text (dotLib 255) (some (testFont 2))
        (some (utf8EncodeAll [0x41, 0xE9, 0x20AC, 0x1F600] ++ 0 :: []))
        (some (List.replicate 12 0)) 3 4 0 0 0xFF0000 0).calls
        = [0x41, 0xE9, 0x20AC, 0x1F600] ∧
      (vfont_render_text (dotLib 255) (some (testFont 2))
        (some (utf8EncodeAll [0x41, 0xE9, 0x20AC, 0x1F600] ++ 0 :: []))
        (some (List.replicate 12 0)) 3 4 0 0 0xFF0000 0).overread = false ∧
      (vfont_render_text (dotLib 255) (some (testFont 2))
        (some (utf8EncodeAll [0x41, 0xE9, 0x20AC, 0x1F600] ++ 0 :: []))
        (some (List.replicate 12 0)) 3 4 0 0 0xFF0000 0).p
        = (utf8EncodeAll [0x41, 0xE9, 0x20AC, 0x1F600]).length) :=
  ⟨by decide, by decide, by decide,
    decode_utf8Encode_roundtrip (dotLib 255) (testFont 2) [0x41, 0xE9, 0x20AC, 0x1F600] []
      (List.replicate 12 0) 3 4 0 0 0xFF0000 0 (by decide) (by decide) (by decide)⟩

set_option maxRecDepth 100000 in
theorem lead_byte_facts : ∀ b < 256,
    (b &&& 0xE0 = 0xC0 → b ≠ 0 ∧ b &&& 0x80 ≠ 0) ∧
      (b &&& 0xF0 = 0xE0 → b ≠ 0 ∧ b &&& 0x80 ≠ 0 ∧ b &&& 0xE0 ≠ 0xC0) ∧
      (b &&& 0xF8 = 0xF0 →
        b ≠ 0 ∧ b &&& 0x80 ≠ 0 ∧ b &&& 0xE0 ≠ 0xC0 ∧ b &&& 0xF0 ≠ 0xE0) := by
  decide

/-- A sequence that starts with a leading byte and has the length the pattern calls for
is decoded and consumed whole, whatever its following bytes are. -/
theorem renderLoop_lead {σ : Type} (lib : FTLib σ) (buf_width buf_height : Int)
    (color : Nat) (pen_y : Int) (seq tail : List Nat) (cp : Nat) (st : Render σ)
    (h : LeadDecodes (seq.map (· % 256)) cp) :
    renderLoop lib buf_width buf_height color pen_y (seq ++ tail) st
      = renderLoop lib buf_width buf_height color pen_y tail
          (renderGlyph lib buf_width buf_height color pen_y cp
            { st with p := st.p + seq.length }) := by
  rcases seq with _ | ⟨c0, _ | ⟨c1, _ | ⟨c2, _ | ⟨c3, _ | ⟨c4, more⟩⟩⟩⟩⟩
  · exact absurd h (by simp [LeadDecodes])
  · obtain ⟨h0, h1, h2⟩ := h
    rw [List.singleton_append, renderLoop_cons]
    dsimp only
    rw [if_neg h0, if_pos h1, h2]
    rfl
  · obtain ⟨h1, h2⟩ := h
    obtain ⟨f0, f1⟩ := (lead_byte_facts (c0 % 256) (Nat.mod_lt _ (by norm_num))).1 h1
    rw [List.cons_append, List.singleton_append, renderLoop_cons]
    dsimp only
    rw [if_neg f0, if_neg f1, if_pos h1, h2]
    rfl
  · obtain ⟨h1, h2⟩ := h
    obtain ⟨f0, f1, f2⟩ := (lead_byte_facts (c0 % 256) (Nat.mod_lt _ (by norm_num))).2.1 h1
    rw [List.cons_append, List.cons_append, List.singleton_append, renderLoop_cons]
    dsimp only
    rw [if_neg f0, if_neg f1, if_neg f2, if_pos h1, h2]
    rfl
  · obtain ⟨h1, h2⟩ := h
    obtain ⟨f0, f1, f2, f3⟩ :=
      (lead_byte_facts (c0 % 256) (Nat.mod_lt _ (by norm_num))).2.2 h1
    rw [List.cons_append, List.cons_append, List.cons_append, List.singleton_append,
      renderLoop_cons]
    dsimp only
    rw [if_neg f0, if_neg f1, if_neg f2, if_neg f3, if_pos h1, h2]
    rfl
  · exact absurd h (by simp [LeadDecodes])

theorem lead_step (text tail seq : List Nat) (cp0 : Nat) (before after final : List FTCall)
    (hsplit : text.map (· % 256) = seq ++ tail.map (· % 256)) (hdec : LeadDecodes seq cp0)
    (hcalls : loadedCodepoints after = loadedCodepoints before ++ [cp0])
    (ih : ∀ cp ∈ loadedCodepoints final, cp ∈ loadedCodepoints after ∨
      ∃ s, s <:+: tail.map (· % 256) ∧ LeadDecodes s cp) :
    ∀ cp ∈ loadedCodepoints final, cp ∈ loadedCodepoints before ∨
      ∃ s, s <:+: text.map (· % 256) ∧ LeadDecodes s cp := by
  intro cp hcp
  rcases ih cp hcp with hin | ⟨s, hs, hd⟩
  · rw [hcalls] at hin
    rcases List.mem_append.mp hin with hold | hnew
    · exact Or.inl hold
    · rw [List.mem_singleton] at hnew
      subst hnew
      exact Or.inr ⟨seq, by rw [hsplit]; exact (List.prefix_append _ _).isInfix, hdec⟩
  · refine Or.inr ⟨s, ?_, hd⟩
    rw [hsplit]
    exact hs.trans (List.suffix_append _ _).isInfix

/-- Every code point requested by the loop was already requested before it started or is
decoded from a leading-byte sequence occurring in the memory it runs over. -/
theorem renderLoop_loaded {σ : Type} (lib : FTLib σ) (buf_width buf_height : Int)
    (color : Nat) (pen_y : Int) (text : List Nat) (st : Render σ) :
    ∀ cp ∈ loadedCodepoints (renderLoop lib buf_width buf_height color pen_y text st).calls,
      cp ∈ loadedCodepoints st.calls ∨
        ∃ s, s <:+: text.map (· % 256) ∧ LeadDecodes s cp := by
  induction text, st using renderLoop.induct lib buf_width buf_height color pen_y with
  | case1 st => exact fun cp hcp => Or.inl hcp
  | case2 c0 rest st p0 h0 =>
    rw [renderLoop_stop lib buf_width buf_height color pen_y c0 rest st h0]
    exact fun cp hcp => Or.inl hcp
  | case3 c0 rest st p0 h0 h1 ih =>
    have e : renderLoop lib buf_width buf_height color pen_y (c0 :: rest) st = _ :=
      renderLoop_lead lib buf_width buf_height color pen_y [c0] rest p0 st ⟨h0, h1, rfl⟩
    rw [e]
    exact lead_step (c0 :: rest) rest [p0] p0 st.calls _ _ rfl ⟨h0, h1, rfl⟩
      (by rw [renderGlyph_calls, loadedCodepoints_append]; rfl) ih
  | case4 c0 st p0 h0 h1 h2 c1 rest2 p1 ih =>
    have e : renderLoop lib buf_width buf_height color pen_y (c0 :: c1 :: rest2) st = _ :=
      renderLoop_lead lib buf_width buf_height color pen_y [c0, c1] rest2 _ st ⟨h2, rfl⟩
    rw [e]
    exact lead_step (c0 :: c1 :: rest2) rest2 [p0, p1] _ st.calls _ _ rfl ⟨h2, rfl⟩
      (by rw [renderGlyph_calls, loadedCodepoints_append]; rfl) ih
  | case5 c0 rest st p0 h0 h1 h2 hne =>
    rw [renderLoop_cons]
    dsimp only
    rw [if_neg h0, if_neg h1, if_pos h2]
    split
    · exact absurd rfl (hne _ _)
    · exact fun cp hcp => Or.inl hcp
  | case6 c0 st p0 h0 h1 h2 h3 c1 c2 rest3 p1 p2 ih =>
    have e : renderLoop lib buf_width buf_height color pen_y (c0 :: c1 :: c2 :: rest3) st
        = _ :=
      renderLoop_lead lib buf_width buf_height color pen_y [c0, c1, c2] rest3 _ st ⟨h3, rfl⟩
    rw [e]
    exact lead_step (c0 :: c1 :: c2 :: rest3) rest3 [p0, p1, p2] _ st.calls _ _ rfl ⟨h3, rfl⟩
      (by rw [renderGlyph_calls, loadedCodepoints_append]; rfl) ih
  | case7 c0 rest st p0 h0 h1 h2 h3 hne =>
    rw [renderLoop_cons]
    dsimp only
    rw [if_neg h0, if_neg h1, if_neg h2, if_pos h3]
    split
    · exact absurd rfl (hne _ _ _)
    · exact fun cp hcp => Or.inl hcp
  | case8 c0 st p0 h0 h1 h2 h3 h4 c1 c2 c3 rest4 p1 p2 p3 ih =>
    have e : renderLoop lib buf_width buf_height color pen_y (c0 :: c1 :: c2 :: c3 :: rest4)
        st = _ :=
      renderLoop_lead lib buf_width buf_height color pen_y [c0, c1, c2, c3] rest4 _ st
        ⟨h4, rfl⟩
    rw [e]
    exact lead_step (c0 :: c1 :: c2 :: c3 :: rest4) rest4 [p0, p1, p2, p3] _ st.calls _ _ rfl
      ⟨h4, rfl⟩ (by rw [renderGlyph_calls, loadedCodepoints_append]; rfl) ih
  | case9 c0 rest st p0 h0 h1 h2 h3 h4 hne =>
    rw [renderLoop_cons]
    dsimp only
    rw [if_neg h0, if_neg h1, if_neg h2, if_neg h3, if_pos h4]
    split
    · exact absurd rfl (hne _ _ _ _)
    · exact fun cp hcp => Or.inl hcp
  | case10 c0 rest st p0 h0 h1 h2 h3 h4 ih =>
    rw [renderLoop_skip lib buf_width buf_height color pen_y c0 rest st h0 h1 h2 h3 h4]
    intro cp hcp
    rcases ih cp hcp with hin | ⟨s, hs, hd⟩
    · exact Or.inl hin
    · exact Or.inr ⟨s, List.infix_cons hs, hd⟩

/-- C7 (evaluation at the failing input): on the string `"\xC3"`, stored as the two bytes
`C3 00`, the loop requests code point `0xC0`, moves the cursor to offset 2, one past the
terminator at offset 1, and reads there, beyond the string.  When the memory after the
terminator holds `41 00`, the loop goes on and requests `0x41` from beyond the string. -/
theorem decode_truncated_sequence_overreads :
    ((vfont_render_text noGlyphLib (some (testFont 2)) (some [0xC3, 0])
        (some (List.replicate 12 0)) 3 4 0 0 0xFF0000 0).p = 2 ∧
      (vfont_render_text noGlyphLib (some (testFont 2)) (some [0xC3, 0])
        (some (List.replicate 12 0)) 3 4 0 0 0xFF0000 0).overread = true ∧
      (vfont_render_text noGlyphLib (some (testFont 2)) (some [0xC3, 0])
        (some (List.replicate 12 0)) 3 4 0 0 0xFF0000 0).calls = [FTCall.Load_Char 0xC0]) ∧
    ((vfont_render_text noGlyphLib (some (testFont 2)) (some [0xC3, 0, 0x41, 0])
        (some (List.replicate 12 0)) 3 4 0 0 0xFF0000 0).p = 3 ∧
      (vfont_render_text noGlyphLib (some (testFont 2)) (some [0xC3, 0, 0x41, 0])
        (some (List.replicate 12 0)) 3 4 0 0 0xFF0000 0).calls
        = [FTCall.Load_Char 0xC0, FTCall.Load_Char 0x41]) := by
  decide

/-- C8 (counterexample): on the bytes `C3 41 00` the leading byte `0xC3` is followed by
`0x41`, which is not a continuation byte; the loop still requests code point `0xC1`,
consumes `0x41` with it and never requests `0x41`; `0xC1` is not the decoding of any
well-formed sequence occurring in the input. -/
theorem malformed_sequence_still_decoded :
    (0x41 &&& 0xC0 ≠ 0x80) ∧
    loadedCodepoints (vfont_render_text noGlyphLib (some (testFont 2)) (some [0xC3, 0x41, 0])
        (some (List.replicate 12 0)) 3 4 0 0 0xFF0000 0).calls = [0xC1] ∧
    (vfont_render_text noGlyphLib (some (testFont 2)) (some [0xC3, 0x41, 0])
        (some (List.replicate 12 0)) 3 4 0 0 0xFF0000 0).p = 2 ∧
    ¬ (∀ cp ∈ loadedCodepoints (vfont_render_text noGlyphLib (some (testFont 2))
          (some [0xC3, 0x41, 0]) (some (List.replicate 12 0)) 3 4 0 0 0xFF0000 0).calls,
        ∃ s, s <:+: [0xC3, 0x41, 0] ∧ WellFormedDecodes s cp) := by
  refine ⟨by decide, by decide, by decide, ?_⟩
  intro h
  obtain ⟨s, hs, hd, hc⟩ := h 0xC1 (by decide)
  have hnocont : ∀ b ∈ [0xC3, 0x41, 0], b &&& 0xC0 ≠ 0x80 := by decide
  rcases s with _ | ⟨b0, _ | ⟨b1, more⟩⟩
  · exact hd
  · obtain ⟨-, h1, h2⟩ := hd
    rw [← h2] at h1
    exact absurd h1 (by decide)
  · exact hnocont b1 (hs.subset (List.mem_cons_of_mem _ (List.mem_cons_self _ _)))
      (hc b1 (List.mem_cons_self _ _))

/-- C8 (amended): every code point passed to the glyph loader is decoded from a sequence
occurring in the text memory that starts with a byte matching one of the four leading
patterns and has the length that pattern calls for, joining the payload bits of the
leading byte with the low six bits of each following byte; such a sequence, when none of
its bytes is the terminator, is decoded and consumed whole whatever the top bits of its
following bytes are (they are not checked to be continuation bytes). -/
theorem loaded_codepoints_from_leading_bytes {σ : Type} (lib : FTLib σ)
    (handle : Option (VFontInternal σ)) (text : List Nat) (buffer : Option (List Nat))
    (buf_width buf_height x y : Int) (color : Nat) (size : Int) :
    (∀ cp ∈ loadedCodepoints (vfont_render_text lib handle (some text) buffer buf_width
          buf_height x y color size).calls,
        ∃ s, s <:+: text.map (· % 256) ∧ LeadDecodes s cp) ∧
      (∀ (pen_y : Int) (seq tail : List Nat) (cp : Nat) (st : Render σ),
        (∀ b ∈ seq, b % 256 ≠ 0) → LeadDecodes (seq.map (· % 256)) cp →
          renderLoop lib buf_width buf_height color pen_y (seq ++ tail) st
            = renderLoop lib buf_width buf_height color pen_y tail
                (renderGlyph lib buf_width buf_height color pen_y cp
                  { st with p := st.p + seq.length })) := by
  refine ⟨?_, fun pen_y seq tail cp st _ h =>
    renderLoop_lead lib buf_width buf_height color pen_y seq tail cp st h⟩
  unfold vfont_render_text
  cases handle with
  | none => exact fun cp hcp => absurd hcp (List.not_mem_nil cp)
  | some font =>
    cases buffer with
    | none => exact fun cp hcp => absurd hcp (List.not_mem_nil cp)
    | some buf =>
      dsimp only
      split
      · exact fun cp hcp => absurd hcp (List.not_mem_nil cp)
      · intro cp hcp
        rcases renderLoop_loaded lib buf_width buf_height color _ text _ cp hcp with hin | hex
        · rw [loadedCodepoints_resolveSize] at hin
          exact absurd hin (List.not_mem_nil cp)
        · exact hex

/-- C9 (evaluation at the failing input): with `x = 0`, `y = 0`, bearings 0 and a
one-pixel mask, the pixel is not composited at `(0, 0)`: with recorded size 2 it is
stored at `(0, 2)`, and with recorded size 1 at `(0, 1)`; the row is `y + size`. -/
theorem baseline_shifted_by_size :
    (vfont_render_text (dotLib 255) (some (testFont 2)) (some [0x41, 0])
        (some (List.replicate 12 0)) 3 4 0 0 0xFF0000 0).writes
        = [{ px := 0, py := 2, index := 6, value := 0xFFFF0000 }] ∧
      (vfont_render_text (dotLib 255) (some (testFont 1)) (some [0x41, 0])
        (some (List.replicate 12 0)) 3 4 0 0 0xFF0000 0).writes
        = [{ px := 0, py := 1, index := 3, value := 0xFFFF0000 }] ∧
      (vfont_render_text (dotLib 255) (some (testFont 2)) (some [0x41, 0])
        (some (List.replicate 12 0)) 3 4 0 0 0xFF0000 0).buffer
        = some [0, 0, 0, 0, 0, 0, 0xFFFF0000, 0, 0, 0, 0, 0] := by
  decide

/-- C10: for a size above 0 that the library accepts, `vfont_set_size` called twice in a
row returns 0 both times, and the second call makes no library call and leaves the handle
as the first call left it; a call with the recorded size returns 0 with no library call
and the handle unchanged. -/
theorem set_size_twice {σ : Type} (lib : FTLib σ) (font : VFontInternal σ) (size : Int)
    (hs : 0 < size) (hacc : (lib.FT_Set_Pixel_Sizes font.face 0 size).2 = 0) :
    (vfont_set_size lib (some font) size).ret = 0 ∧
      (vfont_set_size lib (vfont_set_size lib (some font) size).handle size).ret = 0 ∧
      (vfont_set_size lib (vfont_set_size lib (some font) size).handle size).calls = [] ∧
      (vfont_set_size lib (vfont_set_size lib (some font) size).handle size).handle
        = (vfont_set_size lib (some font) size).handle ∧
      (∀ f : VFontInternal σ, f.current_size = size →
        vfont_set_size lib (some f) size = { ret := 0, handle := some f, calls := [] }) := by
  have hsame : ∀ f : VFontInternal σ, f.current_size = size →
      vfont_set_size lib (some f) size = { ret := 0, handle := some f, calls := [] } := by
    intro f hf
    unfold vfont_set_size
    dsimp only
    rw [if_neg (by omega), if_neg (by simpa using hf)]
  by_cases hcur : font.current_size = size
  · rw [hsame font hcur]
    dsimp only
    rw [hsame font hcur]
    exact ⟨rfl, rfl, rfl, rfl, hsame⟩
  · have hfirst : vfont_set_size lib (some font) size
        = { ret := 0,
            handle := some { font with face := (lib.FT_Set_Pixel_Sizes font.face 0 size).1,
                                       current_size := size },
            calls := [FTCall.Set_Pixel_Sizes 0 size] } := by
      unfold vfont_set_size
      dsimp only
      rw [if_neg (by omega), if_pos hcur, if_neg (by simpa using hacc)]
    rw [hfirst]
    dsimp only
    rw [hsame _ rfl]
    exact ⟨rfl, rfl, rfl, rfl, hsame⟩

/-- Witness for C10: size 5 on a handle of recorded size 2. -/
theorem set_size_twice_witness :
    (0 : Int) < 5 ∧ (noGlyphLib.FT_Set_Pixel_Sizes (testFont 2).face 0 5).2 = 0 ∧
    ((vfont_set_size noGlyphLib (some (testFont 2)) 5).ret = 0 ∧
      (vfont_set_size noGlyphLib (vfont_set_size noGlyphLib (some (testFont 2)) 5).handle
        5).ret = 0 ∧
      (vfont_set_size noGlyphLib (vfont_set_size noGlyphLib (some (testFont 2)) 5).handle
        5).calls = [] ∧
      (vfont_set_size noGlyphLib (vfont_set_size noGlyphLib (some (testFont 2)) 5).handle
        5).handle = (vfont_set_size noGlyphLib (some (testFont 2)) 5).handle ∧
      (∀ f : VFontInternal Unit, f.current_size = 5 →
        vfont_set_size noGlyphLib (some f) 5 = { ret := 0, handle := some f, calls := [] })) :=
  ⟨by decide, by decide, set_size_twice noGlyphLib (testFont 2) 5 (by decide) (by decide)⟩

/-! ## Size and lifecycle claims -/

/-- C11: `vfont_set_size` returns a non-zero code exactly when the handle is null, or
`size ≤ 0`, or `size` differs from the recorded size and the library rejects it; on every
failure the recorded size is what it was before the call, and on every success it equals
the requested size. -/
theorem set_size_failure_iff {σ : Type} (lib : FTLib σ) (handle : Option (VFontInternal σ))
    (size : Int) :
    ((vfont_set_size lib handle size).ret ≠ 0 ↔
        handle = none ∨ size ≤ 0 ∨
          ∃ font, handle = some font ∧ font.current_size ≠ size ∧
            (lib.FT_Set_Pixel_Sizes font.face 0 size).2 ≠ 0) ∧
      ((vfont_set_size lib handle size).ret ≠ 0 →
        (vfont_set_size lib handle size).handle.map (·.current_size)
          = handle.map (·.current_size)) ∧
      ((vfont_set_size lib handle size).ret = 0 →
        (vfont_set_size lib handle size).handle.map (·.current_size) = some size) := by
  have hm1 : (-1 : Int) ≠ 0 := by decide
  cases handle with
  | none =>
    unfold vfont_set_size
    exact ⟨⟨fun _ => Or.inl rfl, fun _ => hm1⟩, fun _ => rfl,
      fun h => absurd h hm1⟩
  | some font =>
    unfold vfont_set_size
    dsimp only
    by_cases hs : size ≤ 0
    · rw [if_pos hs]
      exact ⟨⟨fun _ => Or.inr (Or.inl hs), fun _ => hm1⟩, fun _ => rfl,
        fun h => absurd h hm1⟩
    · rw [if_neg hs]
      by_cases hcur : font.current_size = size
      · rw [if_neg (by simpa using hcur)]
        refine ⟨⟨fun h => absurd rfl h, ?_⟩, fun h => absurd rfl h, fun _ => ?_⟩
        · rintro (h | h | ⟨f, hf, hne, -⟩)
          · exact absurd h (by simp)
          · exact absurd h hs
          · rw [Option.some.injEq] at hf
            subst hf
            exact absurd hcur hne
        · simp [hcur]
      · rw [if_pos hcur]
        by_cases hrej : (lib.FT_Set_Pixel_Sizes font.face 0 size).2 = 0
        · rw [if_neg (by simpa using hrej)]
          refine ⟨⟨fun h => absurd rfl h, ?_⟩, fun h => absurd rfl h, fun _ => rfl⟩
          rintro (h | h | ⟨f, hf, -, hne⟩)
          · exact absurd h (by simp)
          · exact absurd h hs
          · rw [Option.some.injEq] at hf
            subst hf
            exact absurd hrej hne
        · rw [if_pos hrej]
          exact ⟨⟨fun _ => Or.inr (Or.inr ⟨font, rfl, hcur, hrej⟩), fun _ => hm1⟩,
            fun _ => rfl, fun h => absurd h hm1⟩

/-- C12 (evaluation at the failing input): when the library rejects size 5 on a handle of
recorded size 2, `vfont_set_size` returns -1 and keeps the recorded size 2, whereas
`vfont_render_text` with the override 5 records size 5. -/
theorem render_text_records_rejected_size :
    (rejectLib.FT_Set_Pixel_Sizes (testFont 2).face 0 5).2 ≠ 0 ∧
      (vfont_set_size rejectLib (some (testFont 2)) 5).ret = -1 ∧
      (vfont_set_size rejectLib (some (testFont 2)) 5).handle.map (·.current_size)
        = some 2 ∧
      (vfont_render_text rejectLib (some (testFont 2)) (some [0x41, 0])
        (some (List.replicate 12 0)) 3 4 0 0 0xFF0000 5).handle.map (·.current_size)
        = some 5 ∧
      (vfont_render_text rejectLib (some (testFont 2)) (some [0x41, 0])
        (some (List.replicate 12 0)) 3 4 0 0 0xFF0000 5).calls
        = [FTCall.Set_Pixel_Sizes 0 5, FTCall.Load_Char 0x41] := by
  decide

/-- C13 (counterexample): rendering the empty string with the override 5 on a handle of
recorded size 2 calls `FT_Set_Pixel_Sizes` and changes the recorded size to 5. -/
theorem empty_text_applies_size_override :
    (vfont_render_text noGlyphLib (some (testFont 2)) (some [0])
        (some (List.replicate 12 0)) 3 4 0 0 0xFF0000 5).calls
        = [FTCall.Set_Pixel_Sizes 0 5] ∧
      (vfont_render_text noGlyphLib (some (testFont 2)) (some [0])
        (some (List.replicate 12 0)) 3 4 0 0 0xFF0000 5).handle.map (·.current_size)
        = some 5 ∧
      (some (testFont 2)).map (·.current_size) = some (2 : Int) ∧
      ¬ ((vfont_render_text noGlyphLib (some (testFont 2)) (some [0])
          (some (List.replicate 12 0)) 3 4 0 0 0xFF0000 5).handle.map (·.current_size)
          = (some (testFont 2)).map (·.current_size) ∧
        (vfont_render_text noGlyphLib (some (testFont 2)) (some [0])
          (some (List.replicate 12 0)) 3 4 0 0 0xFF0000 5).calls = []) := by
  decide

/-- C13 (amended): a null text leaves the buffer and the handle unchanged and makes no
library call.  An empty text leaves the buffer unchanged, composites nothing and requests
no glyph; when the handle or the buffer is null, or a dimension is not positive, or
`size ≤ 0`, or `size` equals the recorded size, the handle is unchanged and no library
call is made; in the one remaining case (valid arguments and `size > 0` different from
the recorded size) the only library call is the size request
`FT_Set_Pixel_Sizes(face, 0, size)`, and when the library accepts it the recorded size
becomes `size`. -/
theorem null_or_empty_text {σ : Type} (lib : FTLib σ) (handle : Option (VFontInternal σ))
    (buffer : Option (List Nat)) (rest : List Nat) (buf_width buf_height x y : Int)
    (color : Nat) (size : Int) :
    ((vfont_render_text lib handle none buffer buf_width buf_height x y color size).buffer
        = buffer ∧
      (vfont_render_text lib handle none buffer buf_width buf_height x y color size).handle
        = handle ∧
      (vfont_render_text lib handle none buffer buf_width buf_height x y color size).calls
        = []) ∧
    ((vfont_render_text lib handle (some (0 :: rest)) buffer buf_width buf_height x y color
        size).buffer = buffer ∧
      (vfont_render_text lib handle (some (0 :: rest)) buffer buf_width buf_height x y color
        size).writes = [] ∧
      loadedCodepoints (vfont_render_text lib handle (some (0 :: rest)) buffer buf_width
        buf_height x y color size).calls = [] ∧
      ((handle = none ∨ buffer = none ∨ buf_width ≤ 0 ∨ buf_height ≤ 0 ∨ size ≤ 0 ∨
          handle.map (·.current_size) = some size) →
        (vfont_render_text lib handle (some (0 :: rest)) buffer buf_width buf_height x y
          color size).handle = handle ∧
        (vfont_render_text lib handle (some (0 :: rest)) buffer buf_width buf_height x y
          color size).calls = []) ∧
      (∀ font buf, handle = some font → buffer = some buf → 0 < buf_width →
        0 < buf_height → 0 < size → font.current_size ≠ size →
        (vfont_render_text lib handle (some (0 :: rest)) buffer buf_width buf_height x y
          color size).calls = [FTCall.Set_Pixel_Sizes 0 size] ∧
        ((lib.FT_Set_Pixel_Sizes font.face 0 size).2 = 0 →
          (vfont_render_text lib handle (some (0 :: rest)) buffer buf_width buf_height x y
            color size).handle.map (·.current_size) = some size))) := by
  constructor
  · unfold vfont_render_text
    cases handle <;> exact ⟨rfl, rfl, rfl⟩
  · cases handle with
    | none =>
      unfold vfont_render_text
      exact ⟨rfl, rfl, rfl, fun _ => ⟨rfl, rfl⟩, fun font buf hf => absurd hf (by simp)⟩
    | some font =>
      cases buffer with
      | none =>
        unfold vfont_render_text
        exact ⟨rfl, rfl, rfl, fun _ => ⟨rfl, rfl⟩, fun f buf _ hb => absurd hb (by simp)⟩
      | some buf =>
        unfold vfont_render_text
        dsimp only
        by_cases hdim : buf_width ≤ 0 ∨ buf_height ≤ 0
        · rw [if_pos hdim]
          exact ⟨rfl, rfl, rfl, fun _ => ⟨rfl, rfl⟩,
            fun f b _ _ hw hh => absurd hdim (by omega)⟩
        · rw [if_neg hdim,
            renderLoop_stop lib buf_width buf_height color _ 0 rest _ rfl]
          dsimp only
          refine ⟨rfl, rfl, loadedCodepoints_resolveSize lib font size, ?_, ?_⟩
          · intro hsz
            have hno : ¬ (size > 0 ∧ font.current_size ≠ size) := by
              rcases hsz with h | h | h | h | h | h
              · exact absurd h (by simp)
              · exact absurd h (by simp)
              · exact absurd (Or.inl h) hdim
              · exact absurd (Or.inr h) hdim
              · omega
              · simp only [Option.map_some', Option.some.injEq] at h
                exact fun hc => hc.2 h
            unfold resolveSize
            rw [if_neg hno]
            split <;> exact ⟨rfl, rfl⟩
          · intro f b hf _ _ _ hpos hne
            rw [Option.some.injEq] at hf
            subst hf
            unfold resolveSize
            rw [if_pos ⟨hpos, hne⟩]
            exact ⟨rfl, fun _ => rfl⟩

/-- C14: `vfont_init` returns no handle when the path is null, or `size ≤ 0`, or the
library instance cannot be created, or the face cannot be loaded; and whenever it returns
no handle the numbers of live library instances and of live faces after the call equal
the numbers before it. -/
theorem init_failure_releases {σ : Type} (setup : FTSetup σ) (lib : FTLib σ)
    (ttf_path : Option (List Nat)) (size : Int) (libraries faces : Int) :
    ((ttf_path = none ∨ size ≤ 0 ∨ setup.FT_Init_FreeType = none ∨
        (∃ library path, setup.FT_Init_FreeType = some library ∧ ttf_path = some path ∧
          setup.FT_New_Face library path 0 = none)) →
        (vfont_init setup lib ttf_path size).handle = none) ∧
      ((vfont_init setup lib ttf_path size).handle = none →
        liveLibraries libraries (vfont_init setup lib ttf_path size).calls = libraries ∧
        liveFaces faces (vfont_init setup lib ttf_path size).calls = faces) := by
  unfold vfont_init
  cases ttf_path with
  | none => exact ⟨fun _ => rfl, fun _ => by simp [liveLibraries, liveFaces]⟩
  | some path =>
    dsimp only
    by_cases hs : size ≤ 0
    · rw [if_pos hs]
      exact ⟨fun _ => rfl, fun _ => by simp [liveLibraries, liveFaces]⟩
    · rw [if_neg hs]
      by_cases hm : setup.malloc_ok = false
      · rw [if_pos hm]
        exact ⟨fun _ => rfl, fun _ => by simp [liveLibraries, liveFaces]⟩
      · rw [if_neg hm]
        cases hinit : setup.FT_Init_FreeType with
        | none =>
          exact ⟨fun _ => rfl,
            fun _ => by simp [liveLibraries, liveFaces, libraryDelta, faceDelta]⟩
        | some library =>
          dsimp only
          cases hface : setup.FT_New_Face library path 0 with
          | none =>
            exact ⟨fun _ => rfl,
              fun _ => by simp [liveLibraries, liveFaces, libraryDelta, faceDelta]⟩
          | some face =>
            dsimp only
            refine ⟨?_, fun h => absurd h (by simp)⟩
            rintro (h | h | h | ⟨l, p, hl, hp, hn⟩)
            · exact absurd h (by simp)
            · exact absurd h hs
            · exact absurd h (by simp)
            · rw [Option.some.injEq] at hl hp
              subst hl hp
              rw [hface] at hn
              exact absurd hn (by simp)

/-! ## Pen, coverage and channel claims -/

theorem renderGlyph_load_failed {σ : Type} (lib : FTLib σ) (buf_width buf_height : Int)
    (color : Nat) (pen_y : Int) (cp : Nat) (st : Render σ)
    (h : (lib.FT_Load_Char st.face cp).2 = none) :
    renderGlyph lib buf_width buf_height color pen_y cp st
      = { st with face := (lib.FT_Load_Char st.face cp).1,
                  calls := st.calls ++ [FTCall.Load_Char cp] } := by
  unfold renderGlyph
  split
  · rename_i face' heq
    rw [heq]
  · rename_i face' glyph heq
    rw [heq] at h
    exact absurd h (by simp)

theorem toInt32_of_inInt32 (z : Int) (h : InInt32 z) : toInt32 z = z := by
  unfold InInt32 at h
  unfold toInt32
  omega

theorem penAfter_concat (x : Int) (advs : List Int) (a : Int) :
    penAfter x (advs ++ [a]) = toInt32 (penAfter x advs + a) := by
  unfold penAfter
  rw [List.foldl_append]
  rfl

/-- While every partial sum stays in the `int` range the pen is the plain sum. -/
theorem penAfter_eq_sum (x : Int) (advs : List Int)
    (h : ∀ j, InInt32 (x + (advs.take j).sum)) : penAfter x advs = x + advs.sum := by
  induction advs generalizing x with
  | nil => simp [penAfter]
  | cons a l ih =>
    have h1 : InInt32 (x + a) := by simpa using h 1
    have hstep : penAfter x (a :: l) = penAfter (toInt32 (x + a)) l := rfl
    rw [hstep, toInt32_of_inInt32 _ h1, ih (x + a) (fun j => by
      have := h (j + 1)
      simpa [List.take_succ_cons, List.sum_cons, Int.add_assoc] using this)]
    simp [List.sum_cons, Int.add_assoc]

theorem renderGlyph_penInvariant {σ : Type} (lib : FTLib σ) (buf_width buf_height : Int)
    (color : Nat) (x pen_y : Int) (cp : Nat) (st : Render σ) (h : PenInvariant x pen_y st) :
    PenInvariant x pen_y (renderGlyph lib buf_width buf_height color pen_y cp st) := by
  unfold renderGlyph
  split
  · exact h
  · rename_i face' glyph heq
    obtain ⟨h1, h2, h3⟩ := h
    refine ⟨?_, ?_, ?_⟩
    · show toInt32 (st.pen_x + (glyph.advance_x >>> 6)) = _
      rw [List.map_append, List.map_cons, List.map_nil, penAfter_concat, ← h1]
      rfl
    · intro k pl hk
      dsimp only at hk ⊢
      rw [List.map_append, List.map_cons, List.map_nil]
      by_cases hlt : k < st.placed.length
      · rw [List.getElem?_append_left hlt] at hk
        rw [List.take_append_of_le_length (by rw [List.length_map]; exact Nat.le_of_lt hlt)]
        exact h2 k pl hk
      · have hge : st.placed.length ≤ k := Nat.le_of_not_lt hlt
        rw [List.getElem?_append_right hge] at hk
        have hk0 : k - st.placed.length = 0 := by
          by_contra hne
          obtain ⟨j, hj⟩ := Nat.exists_eq_succ_of_ne_zero hne
          rw [hj] at hk
          simp at hk
        rw [hk0] at hk
        simp only [List.getElem?_cons_zero, Option.some.injEq] at hk
        have hkeq : k = (st.placed.map Placement.advance).length := by
          rw [List.length_map]
          omega
        subst hk
        rw [hkeq, List.take_left' rfl, ← h1]
    · intro pl hpl
      rcases List.mem_append.mp hpl with hold | hnew
      · exact h3 pl hold
      · rw [List.mem_singleton] at hnew
        subst hnew
        rfl

/-- One `renderGlyph` is one `penStep` on the face, the pen and the placed glyphs. -/
theorem renderGlyph_penStep {σ : Type} (lib : FTLib σ) (buf_width buf_height : Int)
    (color : Nat) (pen_y : Int) (cp : Nat) (st : Render σ) :
    ((renderGlyph lib buf_width buf_height color pen_y cp st).face,
      (renderGlyph lib buf_width buf_height color pen_y cp st).pen_x,
      (renderGlyph lib buf_width buf_height color pen_y cp st).placed)
      = penStep lib pen_y (st.face, st.pen_x, st.placed) cp := by
  unfold renderGlyph penStep
  dsimp only
  split <;> rfl

theorem renderGlyph_loads {σ : Type} (lib : FTLib σ) (buf_width buf_height : Int)
    (color : Nat) (pen_y : Int) (cp : Nat) (s0 : σ × Int × List Placement) (st : Render σ)
    (h : (st.face, st.pen_x, st.placed)
      = (loadedCodepoints st.calls).foldl (penStep lib pen_y) s0) :
    ((renderGlyph lib buf_width buf_height color pen_y cp st).face,
      (renderGlyph lib buf_width buf_height color pen_y cp st).pen_x,
      (renderGlyph lib buf_width buf_height color pen_y cp st).placed)
      = (loadedCodepoints (renderGlyph lib buf_width buf_height color pen_y cp
          st).calls).foldl (penStep lib pen_y) s0 := by
  rw [renderGlyph_penStep, renderGlyph_calls, loadedCodepoints_append, List.foldl_append,
    ← h]
  rfl

theorem renderGlyph_blitAll {σ : Type} (lib : FTLib σ) (buf_width buf_height : Int)
    (color : Nat) (pen_y : Int) (cp : Nat) (cv0 : Canvas) (st : Render σ)
    (h : ({ buffer := st.buffer, writes := st.writes } : Canvas)
      = blitAll buf_width buf_height color st.placed cv0) :
    ({ buffer := (renderGlyph lib buf_width buf_height color pen_y cp st).buffer,
       writes := (renderGlyph lib buf_width buf_height color pen_y cp st).writes } : Canvas)
      = blitAll buf_width buf_height color
          (renderGlyph lib buf_width buf_height color pen_y cp st).placed cv0 := by
  unfold renderGlyph
  split
  · exact h
  · rename_i face' glyph heq
    dsimp only
    unfold blitAll at h ⊢
    rw [List.foldl_append, ← h]
    rfl


theorem blendChannel_bounds (c d alpha : Nat) (ha : alpha ≤ 255) :
    blendChannel c d alpha ≤ max c d ∧ min c d ≤ blendChannel c d alpha + 1 := by
  unfold blendChannel
  have hsum : alpha + (255 - alpha) = 255 := by omega
  have hup1 : c * alpha ≤ max c d * alpha := Nat.mul_le_mul_right _ (le_max_left c d)
  have hup2 : d * (255 - alpha) ≤ max c d * (255 - alpha) :=
    Nat.mul_le_mul_right _ (le_max_right c d)
  have hup3 : max c d * alpha + max c d * (255 - alpha) = max c d * 255 := by
    rw [← Nat.mul_add, hsum]
  have hlo1 : min c d * alpha ≤ c * alpha := Nat.mul_le_mul_right _ (min_le_left c d)
  have hlo2 : min c d * (255 - alpha) ≤ d * (255 - alpha) :=
    Nat.mul_le_mul_right _ (min_le_right c d)
  have hlo3 : min c d * alpha + min c d * (255 - alpha) = min c d * 255 := by
    rw [← Nat.mul_add, hsum]
  generalize c * alpha = X at *
  generalize d * (255 - alpha) = Y at *
  generalize max c d * alpha = U1 at *
  generalize max c d * (255 - alpha) = U2 at *
  generalize min c d * alpha = L1 at *
  generalize min c d * (255 - alpha) = L2 at *
  generalize max c d = M at *
  generalize min c d = m at *
  omega

/-- C15 (counterexample): with `x = 1` and two glyphs whose advance is `2^32 + 2` pixels,
the pen after the first glyph is narrowed to the `int` 3, so the second glyph is
composited at column 3 and not at `x + advance + bitmap_left = 4294967299`. -/
theorem pen_wraps_outside_int_range :
    wideRun.placed.map (·.x_start) = [1, 3] ∧
      wideRun.placed.map Placement.advance = [4294967298, 4294967298] ∧
      wideRun.writes.map (·.px) = [1, 3] ∧
      wideRun.buffer = some [0, 0xFFFF0000, 0, 0xFFFF0000, 0, 0] ∧
      ¬ (∀ k pl, wideRun.placed[k]? = some pl →
        pl.x_start = 1 + ((wideRun.placed.take k).map Placement.advance).sum
          + pl.glyph.bitmap_left) := by
  refine ⟨by decide, by decide, by decide, by decide, ?_⟩
  intro h
  have e : (wideRun.placed[1]?).map (fun pl => decide (pl.x_start
      = 1 + ((wideRun.placed.take 1).map Placement.advance).sum + pl.glyph.bitmap_left))
      = some false := by decide
  cases hpl : wideRun.placed[1]? with
  | none =>
    rw [hpl] at e
    exact absurd e (by simp)
  | some pl =>
    rw [hpl] at e
    simp only [Option.map_some', Option.some.injEq, decide_eq_false_iff_not] at e
    exact e (h 1 pl hpl)

/-- C15 (amended): the k-th successfully loaded glyph is composited with its left mask
column at the pen reached from `x` after the whole-pixel advances (`advance.x >> 6`) of
the glyphs loaded before it, each sum narrowed to `int`, plus its own `bitmap_left`; as
long as `x` plus those advances stays in the `int` range this is `x` plus their sum plus
`bitmap_left`.  Every glyph of the call hangs from the same vertical pen.  On valid
arguments the pen and the placed glyphs are exactly those obtained by running `penStep`
over the code points passed to the loader, so a failed load contributes nothing and a
successful one places its glyph, and the buffer is the original with the placed masks
composited in order.  The loop goes on with the bytes that follow whatever the outcome of
a load. -/
theorem pen_positions {σ : Type} (lib : FTLib σ) (handle : Option (VFontInternal σ))
    (text : Option (List Nat)) (buffer : Option (List Nat)) (buf_width buf_height x y : Int)
    (color : Nat) (size : Int) :
    (∀ k pl, (vfont_render_text lib handle text buffer buf_width buf_height x y color
          size).placed[k]? = some pl →
        pl.x_start = penAfter x (((vfont_render_text lib handle text buffer buf_width
          buf_height x y color size).placed.map Placement.advance).take k)
          + pl.glyph.bitmap_left) ∧
      ((∀ j, InInt32 (x + (((vfont_render_text lib handle text buffer buf_width buf_height x
          y color size).placed.map Placement.advance).take j).sum)) →
        ∀ k pl, (vfont_render_text lib handle text buffer buf_width buf_height x y color
          size).placed[k]? = some pl →
        pl.x_start = x + (((vfont_render_text lib handle text buffer buf_width buf_height x
          y color size).placed.map Placement.advance).take k).sum + pl.glyph.bitmap_left) ∧
      (∀ pl ∈ (vfont_render_text lib handle text buffer buf_width buf_height x y color
          size).placed,
        pl.y_start = (vfont_render_text lib handle text buffer buf_width buf_height x y color
          size).pen_y - pl.glyph.bitmap_top) ∧
      (∀ font txt buf, handle = some font → text = some txt → buffer = some buf →
        0 < buf_width → 0 < buf_height →
        ((vfont_render_text lib handle text buffer buf_width buf_height x y color size).pen_x,
          (vfont_render_text lib handle text buffer buf_width buf_height x y color
            size).placed)
          = ((loadedCodepoints (vfont_render_text lib handle text buffer buf_width
              buf_height x y color size).calls).foldl
              (penStep lib (vfont_render_text lib handle text buffer buf_width buf_height x
                y color size).pen_y)
              ((resolveSize lib font size).1.face, x, [])).2 ∧
        (vfont_render_text lib handle text buffer buf_width buf_height x y color size).buffer
          = some (blitAll buf_width buf_height color
              (vfont_render_text lib handle text buffer buf_width buf_height x y color
                size).placed { buffer := buf, writes := [] }).buffer) ∧
      (∀ (pen_y : Int) (seq tail : List Nat) (cp : Nat) (st : Render σ),
        (∀ b ∈ seq, b % 256 ≠ 0) → LeadDecodes (seq.map (· % 256)) cp →
          renderLoop lib buf_width buf_height color pen_y (seq ++ tail) st
            = renderLoop lib buf_width buf_height color pen_y tail
                (renderGlyph lib buf_width buf_height color pen_y cp
                  { st with p := st.p + seq.length })) := by
  have hpen : (∀ k pl, (vfont_render_text lib handle text buffer buf_width buf_height x y
          color size).placed[k]? = some pl →
        pl.x_start = penAfter x (((vfont_render_text lib handle text buffer buf_width
          buf_height x y color size).placed.map Placement.advance).take k)
          + pl.glyph.bitmap_left) ∧
      (∀ pl ∈ (vfont_render_text lib handle text buffer buf_width buf_height x y color
          size).placed,
        pl.y_start = (vfont_render_text lib handle text buffer buf_width buf_height x y color
          size).pen_y - pl.glyph.bitmap_top) := by
    have hnil : (∀ k pl, ([] : List Placement)[k]? = some pl →
          pl.x_start = penAfter x ((([] : List Placement).map Placement.advance).take k)
            + pl.glyph.bitmap_left) ∧
        (∀ pl ∈ ([] : List Placement), pl.y_start = y - pl.glyph.bitmap_top) :=
      ⟨fun k pl hk => absurd hk (by simp), fun pl hpl => absurd hpl (List.not_mem_nil pl)⟩
    unfold vfont_render_text
    cases handle with
    | none => exact hnil
    | some font =>
      cases text with
      | none => exact hnil
      | some txt =>
        cases buffer with
        | none => exact hnil
        | some buf =>
          dsimp only
          split
          · exact hnil
          · obtain ⟨-, h2, h3⟩ := renderLoop_invariant lib buf_width buf_height color
              (y + (resolveSize lib font size).2.1)
              (PenInvariant x (y + (resolveSize lib font size).2.1))
              (fun cp st hst => renderGlyph_penInvariant lib buf_width buf_height color x _
                cp st hst)
              (fun st n hst => hst) (fun st hst => hst) txt
              { face := (resolveSize lib font size).1.face, buffer := buf, pen_x := x,
                p := 0, overread := false, calls := (resolveSize lib font size).2.2,
                placed := [], writes := [] }
              ⟨rfl, fun k pl hk => absurd hk (by simp),
                fun pl hpl => absurd hpl (List.not_mem_nil pl)⟩
            exact ⟨h2, h3⟩
  refine ⟨hpen.1, ?_, hpen.2, ?_, fun pen_y seq tail cp st _ h =>
    renderLoop_lead lib buf_width buf_height color pen_y seq tail cp st h⟩
  · intro hrange k pl hk
    rw [hpen.1 k pl hk, penAfter_eq_sum x _ (fun j => by
      rw [List.take_take]
      exact hrange (min j k))]
  · intro font txt buf hf ht hb hw hh
    subst hf ht hb
    unfold vfont_render_text
    dsimp only
    rw [if_neg (by omega)]
    dsimp only
    obtain ⟨hl, hc⟩ := renderLoop_invariant lib buf_width buf_height color
      (y + (resolveSize lib font size).2.1)
      (fun st => (st.face, st.pen_x, st.placed)
          = (loadedCodepoints st.calls).foldl
              (penStep lib (y + (resolveSize lib font size).2.1))
              ((resolveSize lib font size).1.face, x, []) ∧
        ({ buffer := st.buffer, writes := st.writes } : Canvas)
          = blitAll buf_width buf_height color st.placed { buffer := buf, writes := [] })
      (fun cp st hst =>
        ⟨renderGlyph_loads lib buf_width buf_height color _ cp _ st hst.1,
          renderGlyph_blitAll lib buf_width buf_height color _ cp _ st hst.2⟩)
      (fun st n hst => hst) (fun st hst => hst) txt
      { face := (resolveSize lib font size).1.face, buffer := buf, pen_x := x, p := 0,
        overread := false, calls := (resolveSize lib font size).2.2, placed := [],
        writes := [] }
      ⟨by rw [loadedCodepoints_resolveSize]; rfl, rfl⟩
    refine ⟨?_, ?_⟩
    · rw [← hl]
    · rw [← hc]

/-- C16: for a 1-bit mono mask the coverage of mask pixel `(row, col)` is 255 when bit
`7 - col mod 8` (counted from the least significant bit) of the byte at
`row * pitch + col div 8` is set and 0 otherwise; for any other mask it is the byte at
`row * pitch + col`; the one-row mask with byte `0b10110000` covers exactly columns 0, 2
and 3. -/
theorem coverage_bit_order (bitmap : FT_Bitmap) (row col : Nat) :
    (bitmap.pixel_mode = FT_PIXEL_MODE_MONO →
        coverage bitmap row col
          = if Nat.testBit
                (bitmap.buffer ((row : Int) * bitmap.pitch + ((col / 8 : Nat) : Int)) % 256)
                (7 - col % 8)
            then 255 else 0) ∧
      (bitmap.pixel_mode ≠ FT_PIXEL_MODE_MONO →
        coverage bitmap row col
          = bitmap.buffer ((row : Int) * bitmap.pitch + (col : Int)) % 256) ∧
      (List.range 8).map (coverage monoRow 0) = [255, 0, 255, 255, 0, 0, 0, 0] := by
  refine ⟨fun hm => ?_, fun hm => ?_, by decide⟩
  · unfold coverage
    rw [if_pos hm]
    dsimp only
    unfold Nat.testBit
    rw [Nat.and_comm]
    by_cases hb : 1 &&& (bitmap.buffer ((row : Int) * bitmap.pitch + ((col / 8 : Nat) : Int))
        % 256) >>> (7 - col % 8) = 0
    · simp [hb]
    · simp [hb]
  · unfold coverage
    rw [if_neg hm]

/-- C17: the recorded size of a handle is positive: it is above 0 in every handle
returned by `vfont_init`, and `vfont_set_size` and `vfont_render_text`, with any
arguments and any library response, keep it above 0. -/
theorem recorded_size_positive {σ : Type} (setup : FTSetup σ) (lib : FTLib σ) :
    (∀ (ttf_path : Option (List Nat)) (size : Int) (font : VFontInternal σ),
        (vfont_init setup lib ttf_path size).handle = some font → 0 < font.current_size) ∧
      (∀ (font font' : VFontInternal σ) (size : Int), 0 < font.current_size →
        (vfont_set_size lib (some font) size).handle = some font' →
        0 < font'.current_size) ∧
      (∀ (font font' : VFontInternal σ) (text buffer : Option (List Nat))
          (buf_width buf_height x y : Int) (color : Nat) (size : Int),
        0 < font.current_size →
        (vfont_render_text lib (some font) text buffer buf_width buf_height x y color
          size).handle = some font' →
        0 < font'.current_size) := by
  have hres : ∀ (font : VFontInternal σ) (size : Int), 0 < font.current_size →
      0 < (resolveSize lib font size).1.current_size := by
    intro font size hpos
    unfold resolveSize
    split
    · rename_i h
      exact h.1
    · split <;> exact hpos
  refine ⟨?_, ?_, ?_⟩
  · intro ttf_path size font h
    unfold vfont_init at h
    cases ttf_path with
    | none => exact absurd h (by simp)
    | some path =>
      dsimp only at h
      by_cases hs : size ≤ 0
      · rw [if_pos hs] at h
        exact absurd h (by simp)
      · rw [if_neg hs] at h
        by_cases hm : setup.malloc_ok = false
        · rw [if_pos hm] at h
          exact absurd h (by simp)
        · rw [if_neg hm] at h
          cases hinit : setup.FT_Init_FreeType with
          | none =>
            rw [hinit] at h
            exact absurd h (by simp)
          | some library =>
            rw [hinit] at h
            dsimp only at h
            cases hface : setup.FT_New_Face library path 0 with
            | none =>
              rw [hface] at h
              exact absurd h (by simp)
            | some face =>
              rw [hface] at h
              dsimp only at h
              rw [Option.some.injEq] at h
              subst h
              show 0 < size
              omega
  · intro font font' size hpos h
    unfold vfont_set_size at h
    dsimp only at h
    split at h
    · rw [Option.some.injEq] at h
      subst h
      exact hpos
    · split at h
      · split at h
        · rw [Option.some.injEq] at h
          subst h
          exact hpos
        · rw [Option.some.injEq] at h
          subst h
          show 0 < size
          omega
      · rw [Option.some.injEq] at h
        subst h
        exact hpos
  · intro font font' text buffer buf_width buf_height x y color size hpos h
    unfold vfont_render_text at h
    cases text with
    | none =>
      rw [Option.some.injEq] at h
      subst h
      exact hpos
    | some txt =>
      cases buffer with
      | none =>
        rw [Option.some.injEq] at h
        subst h
        exact hpos
      | some buf =>
        dsimp only at h
        split at h
        · rw [Option.some.injEq] at h
          subst h
          exact hpos
        · rw [Option.some.injEq] at h
          subst h
          exact hres font size hpos

/-- C18: for coverage and channel values in `0..255` the blended channel
`c*alpha/255 + d*(255-alpha)/255` is at most `max c d` and at least `min c d - 1`; it is
at most 255, so the narrowing to `uint8_t` leaves it unchanged, and each channel read
back from the packed pixel is the blended channel, without bits of another channel. -/
theorem blend_channel_bounds (c d alpha : Nat) (hc : c ≤ 255) (hd : d ≤ 255)
    (ha : alpha ≤ 255) :
    blendChannel c d alpha ≤ max c d ∧ min c d - 1 ≤ blendChannel c d alpha ∧
      blendChannel c d alpha ≤ 255 ∧
      (c * alpha / 255 + d * (255 - alpha) / 255) % 256 = blendChannel c d alpha ∧
      (∀ color bg : Nat,
        (blend color bg alpha >>> 16) &&& 0xFF
            = blendChannel ((color >>> 16) &&& 0xFF) ((bg >>> 16) &&& 0xFF) alpha ∧
          (blend color bg alpha >>> 8) &&& 0xFF
            = blendChannel ((color >>> 8) &&& 0xFF) ((bg >>> 8) &&& 0xFF) alpha ∧
          blend color bg alpha &&& 0xFF
            = blendChannel (color &&& 0xFF) (bg &&& 0xFF) alpha) := by
  obtain ⟨hmax, hmin⟩ := blendChannel_bounds c d alpha ha
  refine ⟨hmax, by omega, blendChannel_le c d alpha hc hd ha,
    narrow_blendChannel c d alpha hc hd ha, ?_⟩
  intro color bg
  have hr := blendChannel_le (color / 65536 % 256) (bg / 65536 % 256) alpha
    (by omega) (by omega) ha
  have hg := blendChannel_le (color / 256 % 256) (bg / 256 % 256) alpha
    (by omega) (by omega) ha
  have hb := blendChannel_le (color % 256) (bg % 256) alpha (by omega) (by omega) ha
  rw [blend_eq color bg alpha ha]
  simp only [and_0xFF, Nat.shiftRight_eq_div_pow, Nat.reducePow]
  refine ⟨?_, ?_, ?_⟩ <;> omega

/-- Witness for C18: red channel 200 over background 100 at coverage 128. -/
theorem blend_channel_bounds_witness :
    200 ≤ 255 ∧ 100 ≤ 255 ∧ 128 ≤ 255 ∧
    (blendChannel 200 100 128 ≤ max 200 100 ∧ min 200 100 - 1 ≤ blendChannel 200 100 128 ∧
      blendChannel 200 100 128 ≤ 255 ∧
      (200 * 128 / 255 + 100 * (255 - 128) / 255) % 256 = blendChannel 200 100 128 ∧
      (∀ color bg : Nat,
        (blend color bg 128 >>> 16) &&& 0xFF
            = blendChannel ((color >>> 16) &&& 0xFF) ((bg >>> 16) &&& 0xFF) 128 ∧
          (blend color bg 128 >>> 8) &&& 0xFF
            = blendChannel ((color >>> 8) &&& 0xFF) ((bg >>> 8) &&& 0xFF) 128 ∧
          blend color bg 128 &&& 0xFF
            = blendChannel (color &&& 0xFF) (bg &&& 0xFF) 128)) :=
  ⟨by decide, by decide, by decide, blend_channel_bounds 200 100 128 (by decide) (by decide)
    (by decide)⟩

end VFont
